import Mathlib

/-!
Verification model of the `pg_hlc` hybrid logical clock extension
(`src/lib.rs`).  Rust strings are modelled as `List Char` (UTF-8 byte order
coincides with code-point order, so lexicographic comparison agrees), and
`chrono` UTC instants as `Int` nanoseconds since the Unix epoch.  Machine
integers (`i32` counters, `i64` minutes) are modelled as `Int`, with the
two's-complement width made explicit where the code's formatting or
overflow checks depend on it.
-/

/-- Rust `String` / `&str`, modelled as its list of characters. -/
abbrev Str := List Char

/-- The decimal digit character for `n % 10`. -/
def digitChar (n : Nat) : Char :=
  match n % 10 with
  | 0 => '0' | 1 => '1' | 2 => '2' | 3 => '3' | 4 => '4'
  | 5 => '5' | 6 => '6' | 7 => '7' | 8 => '8' | _ => '9'

/-- Decimal digit value of a character, `none` for non-digits. -/
def digitVal? (c : Char) : Option Nat :=
  if 48 ≤ c.toNat ∧ c.toNat ≤ 57 then some (c.toNat - 48) else none

/-- Uppercase hexadecimal digit character for `n % 16` (Rust `{:X}`). -/
def hexDigitChar (n : Nat) : Char :=
  match n % 16 with
  | 0 => '0' | 1 => '1' | 2 => '2' | 3 => '3' | 4 => '4'
  | 5 => '5' | 6 => '6' | 7 => '7' | 8 => '8' | 9 => '9'
  | 10 => 'A' | 11 => 'B' | 12 => 'C' | 13 => 'D' | 14 => 'E' | _ => 'F'

/-- Hexadecimal digit value (both cases), as accepted by Rust
`from_str_radix(_, 16)`. -/
def hexDigitVal? (c : Char) : Option Nat :=
  if 48 ≤ c.toNat ∧ c.toNat ≤ 57 then some (c.toNat - 48)
  else if 65 ≤ c.toNat ∧ c.toNat ≤ 70 then some (c.toNat - 55)
  else if 97 ≤ c.toNat ∧ c.toNat ≤ 102 then some (c.toNat - 87)
  else none

/-- `n` printed as exactly `k` decimal digits, zero padded, most significant
first (the `{:0k}` fixed-width rendering used by chrono for date/time
fields). -/
def padNum : Nat → Nat → Str
  | 0, _ => []
  | k + 1, n => digitChar (n / 10 ^ k) :: padNum k (n % 10 ^ k)

/-- Read exactly `k` decimal digits from the front of `s`, extending the
accumulator `acc`. -/
def readDigitsAux : Nat → Nat → Str → Option (Nat × Str)
  | 0, acc, s => some (acc, s)
  | _ + 1, _, [] => none
  | k + 1, acc, c :: s =>
    match digitVal? c with
    | some d => readDigitsAux k (acc * 10 + d) s
    | none => none

/-- Read exactly `k` decimal digits as a number. -/
def readDigits (k : Nat) (s : Str) : Option (Nat × Str) :=
  readDigitsAux k 0 s

/-- Consume one expected character. -/
def expectChar (c : Char) : Str → Option Str
  | [] => none
  | c' :: s => if c' = c then some s else none

/-- Days since 1970-01-01 of the proleptic Gregorian date `(y, m, d)`
(Howard Hinnant's `days_from_civil`; extensionally the day numbering used by
chrono's `NaiveDate`). -/
def daysFromCivil (y m d : Int) : Int :=
  let y' := y - (if m ≤ 2 then 1 else 0)
  let era := y' / 400
  let yoe := y' - era * 400
  let doy := (153 * (m + (if 2 < m then -3 else 9)) + 2) / 5 + d - 1
  let doe := yoe * 365 + yoe / 4 - yoe / 100 + doy
  era * 146097 + doe - 719468

/-- Era (400-year Gregorian cycle) index of a day count, as in Howard
Hinnant's `civil_from_days`. -/
def cfdEra (z : Int) : Int := (z + 719468) / 146097

/-- Day-of-era of a day count. -/
def cfdDoe (z : Int) : Int := (z + 719468) - cfdEra z * 146097

/-- Year-of-era of a day count. -/
def cfdYoe (z : Int) : Int :=
  (cfdDoe z - cfdDoe z / 1460 + cfdDoe z / 36524 - cfdDoe z / 146096) / 365

/-- Day-of-year (March-first calendar) of a day count. -/
def cfdDoy (z : Int) : Int :=
  cfdDoe z - (365 * cfdYoe z + cfdYoe z / 4 - cfdYoe z / 100)

/-- Shifted month index (March = 0) of a day count. -/
def cfdMp (z : Int) : Int := (5 * cfdDoy z + 2) / 153

/-- Day-of-month of a day count. -/
def cfdD (z : Int) : Int := cfdDoy z - (153 * cfdMp z + 2) / 5 + 1

/-- Month of a day count. -/
def cfdM (z : Int) : Int := cfdMp z + (if cfdMp z < 10 then 3 else -9)

/-- Year of a day count. -/
def cfdY (z : Int) : Int :=
  cfdYoe z + cfdEra z * 400 + (if cfdM z ≤ 2 then 1 else 0)

/-- Proleptic Gregorian date `(y, m, d)` of a day count since 1970-01-01
(Howard Hinnant's `civil_from_days`; the inverse of `daysFromCivil` on real
dates). -/
def civilFromDays (z : Int) : Int × Int × Int := (cfdY z, cfdM z, cfdD z)

set_option maxHeartbeats 16000000 in
/-- Within one 400-year era, the year-of-era formula of `civilFromDays`
lands on the year whose first day is at most `doe` and whose span covers
`doe`. -/
theorem yoe_inversion (doe yoe : Int) (h0 : 0 ≤ doe) (h1 : doe < 146097)
    (hy : yoe = (doe - doe / 1460 + doe / 36524 - doe / 146096) / 365) :
    0 ≤ yoe ∧ yoe ≤ 399 ∧ 365 * yoe + yoe / 4 - yoe / 100 ≤ doe ∧
      doe ≤ 365 * yoe + yoe / 4 - yoe / 100 + 365 := by
  have hb0 : 0 ≤ yoe := by omega
  have hb1 : yoe ≤ 399 := by omega
  refine ⟨hb0, hb1, ?_⟩
  interval_cases yoe <;> omega

theorem cfdDoe_bounds (z : Int) : 0 ≤ cfdDoe z ∧ cfdDoe z < 146097 := by
  unfold cfdDoe cfdEra; omega

theorem cfd_inversion (z : Int) :
    0 ≤ cfdYoe z ∧ cfdYoe z ≤ 399 ∧
      365 * cfdYoe z + cfdYoe z / 4 - cfdYoe z / 100 ≤ cfdDoe z ∧
      cfdDoe z ≤ 365 * cfdYoe z + cfdYoe z / 4 - cfdYoe z / 100 + 365 :=
  yoe_inversion (cfdDoe z) (cfdYoe z) (cfdDoe_bounds z).1 (cfdDoe_bounds z).2 rfl

theorem cfdDoy_bounds (z : Int) : 0 ≤ cfdDoy z ∧ cfdDoy z ≤ 365 := by
  have h := cfd_inversion z
  unfold cfdDoy; omega

theorem cfdMp_bounds (z : Int) : 0 ≤ cfdMp z ∧ cfdMp z ≤ 11 := by
  have h := cfdDoy_bounds z
  unfold cfdMp; omega

/-- `daysFromCivil`, with its intermediate values abstracted. -/
theorem days_core (y m d y' era yoe doy doe : Int)
    (h1 : y' = y - (if m ≤ 2 then 1 else 0))
    (h2 : era = y' / 400)
    (h3 : yoe = y' - era * 400)
    (h4 : doy = (153 * (m + (if 2 < m then -3 else 9)) + 2) / 5 + d - 1)
    (h5 : doe = yoe * 365 + yoe / 4 - yoe / 100 + doy) :
    daysFromCivil y m d = era * 146097 + doe - 719468 := by
  subst h5 h4 h3 h2 h1; rfl

/-- The month/day fields reconstruct the day-of-year, and the month
determines on which side of the February boundary the year lies. -/
theorem cfd_month_day (z : Int) :
    (153 * (cfdM z + (if 2 < cfdM z then -3 else 9)) + 2) / 5 + cfdD z - 1 =
      cfdDoy z := by
  have hmp := cfdMp_bounds z
  have hd : cfdD z = cfdDoy z - (153 * cfdMp z + 2) / 5 + 1 := rfl
  rcases lt_or_le (cfdMp z) 10 with h10 | h10
  · have hm : cfdM z = cfdMp z + 3 := by unfold cfdM; rw [if_pos h10]
    have hgt : 2 < cfdM z := by omega
    rw [if_pos hgt, show cfdM z + -3 = cfdMp z from by omega]
    omega
  · have hm : cfdM z = cfdMp z + -9 := by unfold cfdM; rw [if_neg (by omega)]
    have hle : ¬ (2 < cfdM z) := by omega
    rw [if_neg hle, show cfdM z + 9 = cfdMp z from by omega]
    omega

theorem cfdM_le_two_iff (z : Int) : cfdM z ≤ 2 ↔ 10 ≤ cfdMp z := by
  have hmp := cfdMp_bounds z
  unfold cfdM
  split_ifs <;> omega

theorem daysFromCivil_civilFromDays (z : Int) :
    daysFromCivil (civilFromDays z).1 (civilFromDays z).2.1 (civilFromDays z).2.2 = z := by
  show daysFromCivil (cfdY z) (cfdM z) (cfdD z) = z
  have hinv := cfd_inversion z
  have hz : z = cfdEra z * 146097 + cfdDoe z - 719468 := by
    unfold cfdDoe; omega
  conv_rhs => rw [hz]
  refine days_core (cfdY z) (cfdM z) (cfdD z)
    (cfdYoe z + cfdEra z * 400) (cfdEra z) (cfdYoe z) (cfdDoy z) (cfdDoe z)
    ?_ ?_ ?_ ?_ ?_
  · unfold cfdY; omega
  · omega
  · omega
  · exact (cfd_month_day z).symm
  · unfold cfdDoy; omega

-- sanity checks of the calendar model
example : daysFromCivil 1970 1 1 = 0 := by decide
example : daysFromCivil 2024 2 29 = 19782 := by decide
example : civilFromDays 19782 = (2024, 2, 29) := by decide
example : civilFromDays 0 = (1970, 1, 1) := by decide
example : civilFromDays (-719528) = (0, 1, 1) := by decide

theorem cfdD_bounds (z : Int) : 1 ≤ cfdD z ∧ cfdD z ≤ 31 := by
  have hdoy := cfdDoy_bounds z
  have hmp := cfdMp_bounds z
  unfold cfdD; unfold cfdMp
  omega

theorem cfdM_bounds (z : Int) : 1 ≤ cfdM z ∧ cfdM z ≤ 12 := by
  have hmp := cfdMp_bounds z
  unfold cfdM
  split_ifs <;> omega

theorem cfdY_bounds (z : Int) (hlo : -719528 ≤ z) (hhi : z ≤ 2932896) :
    0 ≤ cfdY z ∧ cfdY z ≤ 9999 := by
  have hinv := cfd_inversion z
  have hdoy := cfdDoy_bounds z
  have hmp := cfdMp_bounds z
  have hm2 : (cfdM z ≤ 2 ∧ 10 ≤ cfdMp z) ∨ (3 ≤ cfdM z ∧ cfdMp z ≤ 9) := by
    rcases (cfdM_le_two_iff z).symm with h
    rcases le_or_lt 10 (cfdMp z) with h10 | h10
    · exact Or.inl ⟨h.mp h10, h10⟩
    · refine Or.inr ⟨?_, by omega⟩
      by_contra hc
      exact absurd (h.mpr (by omega)) (by omega)
  have hdoe : cfdDoe z = (z + 719468) - cfdEra z * 146097 := rfl
  have hdoy' : cfdDoy z = cfdDoe z - (365 * cfdYoe z + cfdYoe z / 4 - cfdYoe z / 100) := rfl
  have hmp' : cfdMp z = (5 * cfdDoy z + 2) / 153 := rfl
  have heraB : -1 ≤ cfdEra z ∧ cfdEra z ≤ 24 := by unfold cfdEra; omega
  have hk1 : cfdEra z ≠ -1 ∨ (cfdYoe z = 399 ∧ 306 ≤ cfdDoy z) := by
    rcases eq_or_ne (cfdEra z) (-1) with he | he
    · exact Or.inr ⟨by omega, by omega⟩
    · exact Or.inl he
  have hk2 : cfdEra z ≠ 24 ∨ cfdYoe z ≤ 398 ∨ cfdDoy z ≤ 305 := by
    rcases eq_or_ne (cfdEra z) 24 with he | he
    · exact Or.inr (by omega)
    · exact Or.inl he
  unfold cfdY
  split_ifs with h <;> omega

/-- A real proleptic-Gregorian calendar date, characterised by the day
conversion being invertible (chrono's `NaiveDate::from_ymd_opt` validity). -/
def isValidDate (y m d : Nat) : Bool :=
  (1 ≤ m && m ≤ 12 && 1 ≤ d && d ≤ 31) &&
    (civilFromDays (daysFromCivil y m d) == ((y : Int), (m : Int), (d : Int)))

/-- Value of a digit string, most significant digit first. -/
def natValue (s : Str) : Nat :=
  s.foldl (fun a c => a * 10 + ((digitVal? c).getD 0)) 0

/-- Read an optional fractional-second field: a `.` followed by at least one
digit; digits beyond nanosecond precision are consumed and truncated
(chrono's `Fixed::Nanosecond`). -/
def readFrac : Str → Option (Nat × Str)
  | [] => some (0, [])
  | c :: rest =>
    if c = '.' then
      let ds := rest.takeWhile fun c => (digitVal? c).isSome
      if ds = [] then none
      else some (natValue (ds.take 9) * 10 ^ (9 - min 9 ds.length), rest.drop ds.length)
    else some (0, c :: rest)

/-- Read a numeric `HH:MM` timezone offset with the given sign; minutes must
be below 60 and the magnitude strictly below one day (chrono's
`FixedOffset::east_opt`). -/
def readOffsetNum (sign : Int) (s : Str) : Option (Int × Str) :=
  match readDigits 2 s with
  | none => none
  | some (h, s) =>
    match expectChar ':' s with
    | none => none
    | some s =>
      match readDigits 2 s with
      | none => none
      | some (mi, s) =>
        if mi < 60 ∧ (h : Int) * 3600 + (mi : Int) * 60 < 86400 then
          some (sign * ((h : Int) * 3600 + (mi : Int) * 60), s)
        else none

/-- Read an RFC 3339 timezone offset: `Z`/`z` or `±HH:MM`. -/
def readOffset : Str → Option (Int × Str)
  | 'Z' :: s => some (0, s)
  | 'z' :: s => some (0, s)
  | '+' :: s => readOffsetNum 1 s
  | '-' :: s => readOffsetNum (-1) s
  | _ => none

/-- Read the `YYYY-MM-DD` date part of an RFC 3339 string. -/
def readYmd (s : Str) : Option (Nat × Nat × Nat × Str) := do
  let (y, s) ← readDigits 4 s
  let s ← expectChar '-' s
  let (mo, s) ← readDigits 2 s
  let s ← expectChar '-' s
  let (d, s) ← readDigits 2 s
  some (y, mo, d, s)

/-- Read the date/time separator of an RFC 3339 string (`T`, `t` or a
space, as accepted by chrono). -/
def readSep : Str → Option Str
  | c :: rest => if c = 'T' ∨ c = 't' ∨ c = ' ' then some rest else none
  | [] => none

/-- Read the `HH:MM:SS` time part of an RFC 3339 string. -/
def readHms (s : Str) : Option (Nat × Nat × Nat × Str) := do
  let (h, s) ← readDigits 2 s
  let s ← expectChar ':' s
  let (mi, s) ← readDigits 2 s
  let s ← expectChar ':' s
  let (sec, s) ← readDigits 2 s
  some (h, mi, sec, s)

/-- `chrono::DateTime::parse_from_rfc3339`, composed with
`with_timezone(&Utc)`: the UTC instant (nanoseconds since the epoch) denoted
by an RFC 3339 string, or `none` if the string is rejected.  Leap-second
inputs (`:60`) are modelled as rejected. -/
def parseRfc3339 (s : Str) : Option Int :=
  match readYmd s with
  | none => none
  | some (y, mo, d, s) =>
    match readSep s with
    | none => none
    | some s =>
      match readHms s with
      | none => none
      | some (h, mi, sec, s) =>
        match readFrac s with
        | none => none
        | some (nanos, s) =>
          match readOffset s with
          | none => none
          | some (offset, s) =>
            if s = [] ∧ isValidDate y mo d = true ∧ h < 24 ∧ mi < 60 ∧ sec < 60
            then
              some ((daysFromCivil y mo d * 86400 + (h : Int) * 3600 +
                (mi : Int) * 60 + (sec : Int) - offset) * 1000000000 +
                (nanos : Int))
            else none

/-- Fractional-second field printed by chrono's `SecondsFormat::AutoSi`:
empty, or 3, 6 or 9 digits depending on the trailing zeros of the
nanosecond value. -/
def fracRfc3339 (nanos : Nat) : Str :=
  if nanos = 0 then []
  else if nanos % 1000000 = 0 then '.' :: padNum 3 (nanos / 1000000)
  else if nanos % 1000 = 0 then '.' :: padNum 6 (nanos / 1000)
  else '.' :: padNum 9 nanos

/-- `chrono::DateTime::<Utc>::to_rfc3339`: the canonical RFC 3339 rendering
of a UTC instant, with `+00:00` offset. -/
def printRfc3339 (i : Int) : Str :=
  let secs := i / 1000000000
  let nanos := (i % 1000000000).toNat
  let days := secs / 86400
  let sod := (secs % 86400).toNat
  padNum 4 (cfdY days).toNat ++ '-' :: padNum 2 (cfdM days).toNat ++
    '-' :: padNum 2 (cfdD days).toNat ++
    'T' :: padNum 2 (sod / 3600) ++ ':' :: padNum 2 (sod % 3600 / 60) ++
    ':' :: padNum 2 (sod % 60) ++
    fracRfc3339 nanos ++ ('+' :: '0' :: '0' :: ':' :: '0' :: '0' :: [])

/-- Instants whose UTC calendar year has four digits, i.e. those whose
`to_rfc3339` rendering stays inside the strict RFC 3339 grammar. -/
def printable (i : Int) : Prop :=
  -62167219200000000000 ≤ i ∧ i ≤ 253402300799999999999

-- sanity checks of the RFC 3339 model
example : parseRfc3339 "1970-01-01T00:00:00Z".toList = some 0 := by decide
example : printRfc3339 0 = "1970-01-01T00:00:00+00:00".toList := by decide

theorem digitVal?_digitChar (d : Nat) : digitVal? (digitChar d) = some (d % 10) := by
  rcases (by omega : d % 10 = 0 ∨ d % 10 = 1 ∨ d % 10 = 2 ∨ d % 10 = 3 ∨
      d % 10 = 4 ∨ d % 10 = 5 ∨ d % 10 = 6 ∨ d % 10 = 7 ∨ d % 10 = 8 ∨
      d % 10 = 9) with h | h | h | h | h | h | h | h | h | h <;>
    · unfold digitChar; rw [h]; decide

theorem padNum_length (k n : Nat) : (padNum k n).length = k := by
  induction k generalizing n with
  | zero => rfl
  | succ k ih => simp [padNum, ih]

theorem padNum_all_digits (k n : Nat) (c : Char) (hc : c ∈ padNum k n) :
    (digitVal? c).isSome = true := by
  induction k generalizing n with
  | zero => simp [padNum] at hc
  | succ k ih =>
    simp only [padNum, List.mem_cons] at hc
    rcases hc with hc | hc
    · subst hc; rw [digitVal?_digitChar]; rfl
    · exact ih _ hc

theorem readDigitsAux_cons (k acc : Nat) (c : Char) (s : Str) :
    readDigitsAux (k + 1) acc (c :: s) =
      match digitVal? c with
      | some d => readDigitsAux k (acc * 10 + d) s
      | none => none := rfl

theorem readDigitsAux_padNum (k acc n : Nat) (r : Str) (h : n < 10 ^ k) :
    readDigitsAux k acc (padNum k n ++ r) = some (acc * 10 ^ k + n, r) := by
  induction k generalizing acc n with
  | zero =>
    have hn : n = 0 := by omega
    subst hn
    simp [padNum, readDigitsAux]
  | succ k ih =>
    have hq : n / 10 ^ k < 10 := by
      have hp : (10 : Nat) ^ (k + 1) = 10 ^ k * 10 := by ring
      exact Nat.div_lt_of_lt_mul (by omega)
    have hd : digitVal? (digitChar (n / 10 ^ k)) = some (n / 10 ^ k) := by
      rw [digitVal?_digitChar, Nat.mod_eq_of_lt hq]
    rw [padNum, List.cons_append, readDigitsAux_cons, hd]
    show readDigitsAux k (acc * 10 + n / 10 ^ k) (padNum k (n % 10 ^ k) ++ r) =
      some (acc * 10 ^ (k + 1) + n, r)
    rw [ih (acc * 10 + n / 10 ^ k) (n % 10 ^ k) (Nat.mod_lt _ (by positivity))]
    have hsplit : 10 ^ k * (n / 10 ^ k) + n % 10 ^ k = n := Nat.div_add_mod n (10 ^ k)
    have harith : (acc * 10 + n / 10 ^ k) * 10 ^ k + n % 10 ^ k =
        acc * 10 ^ (k + 1) + n := by
      conv_rhs => rw [← hsplit]
      ring
    rw [harith]

theorem readDigits_padNum (k n : Nat) (r : Str) (h : n < 10 ^ k) :
    readDigits k (padNum k n ++ r) = some (n, r) := by
  unfold readDigits
  rw [readDigitsAux_padNum k 0 n r h]
  norm_num

theorem readDigits_padNum4 (n : Nat) (r : Str) (h : n < 10000) :
    readDigits 4 (padNum 4 n ++ r) = some (n, r) :=
  readDigits_padNum 4 n r (by norm_num [h])

theorem readDigits_padNum2 (n : Nat) (r : Str) (h : n < 100) :
    readDigits 2 (padNum 2 n ++ r) = some (n, r) :=
  readDigits_padNum 2 n r (by norm_num [h])

theorem expectChar_cons (c : Char) (s : Str) : expectChar c (c :: s) = some s := by
  simp [expectChar]

theorem readSep_T (s : Str) : readSep ('T' :: s) = some s := by
  simp [readSep]

theorem readYmd_print (y m d : Nat) (r : Str) (hy : y < 10000) (hm : m < 100)
    (hd : d < 100) :
    readYmd (padNum 4 y ++ '-' :: (padNum 2 m ++ '-' :: (padNum 2 d ++ r))) =
      some (y, m, d, r) := by
  simp [readYmd, readDigits_padNum4 y _ hy, readDigits_padNum2 m _ hm,
    readDigits_padNum2 d _ hd, expectChar_cons]

theorem readHms_print (h mi sec : Nat) (r : Str) (hh : h < 100) (hmi : mi < 100)
    (hs : sec < 100) :
    readHms (padNum 2 h ++ ':' :: (padNum 2 mi ++ ':' :: (padNum 2 sec ++ r))) =
      some (h, mi, sec, r) := by
  simp [readHms, readDigits_padNum2 h _ hh, readDigits_padNum2 mi _ hmi,
    readDigits_padNum2 sec _ hs, expectChar_cons]

theorem natValue_aux (k n acc : Nat) (h : n < 10 ^ k) :
    List.foldl (fun a c => a * 10 + ((digitVal? c).getD 0)) acc (padNum k n) =
      acc * 10 ^ k + n := by
  induction k generalizing acc n with
  | zero =>
    simp only [padNum, List.foldl_nil]
    omega
  | succ k ih =>
    have hq : n / 10 ^ k < 10 := by
      have hp : (10 : Nat) ^ (k + 1) = 10 ^ k * 10 := by ring
      exact Nat.div_lt_of_lt_mul (by omega)
    simp only [padNum, List.foldl_cons, digitVal?_digitChar, Option.getD_some]
    rw [Nat.mod_eq_of_lt hq,
      ih (n % 10 ^ k) (acc * 10 + n / 10 ^ k) (Nat.mod_lt _ (by positivity))]
    have hsplit : 10 ^ k * (n / 10 ^ k) + n % 10 ^ k = n := Nat.div_add_mod n (10 ^ k)
    conv_rhs => rw [← hsplit]
    ring

theorem natValue_padNum (k n : Nat) (h : n < 10 ^ k) : natValue (padNum k n) = n := by
  unfold natValue
  rw [natValue_aux k n 0 h]
  norm_num

theorem takeWhile_padNum_plus (k n : Nat) (r : Str) :
    ((padNum k n ++ '+' :: r).takeWhile fun c => (digitVal? c).isSome) = padNum k n := by
  induction k generalizing n with
  | zero =>
    simp only [padNum, List.nil_append]
    exact List.takeWhile_cons_of_neg (by decide)
  | succ k ih =>
    simp only [padNum, List.cons_append]
    rw [List.takeWhile_cons_of_pos (by rw [digitVal?_digitChar]; rfl), ih]

theorem padNum_ne_nil (k n : Nat) (h : 0 < k) : padNum k n ≠ [] := by
  intro hc
  have := padNum_length k n
  rw [hc] at this
  simp at this
  omega

theorem readFrac_cons (c : Char) (rest : Str) :
    readFrac (c :: rest) =
      if c = '.' then
        (let ds := rest.takeWhile fun c => (digitVal? c).isSome
         if ds = [] then none
         else some (natValue (ds.take 9) * 10 ^ (9 - min 9 ds.length),
           rest.drop ds.length))
      else some (0, c :: rest) := rfl

theorem readFrac_print (nanos : Nat) (hn : nanos < 1000000000) (r : Str) :
    readFrac (fracRfc3339 nanos ++ '+' :: r) = some (nanos, '+' :: r) := by
  unfold fracRfc3339
  split_ifs with h0 h3 h6
  · rw [h0]
    simp only [List.nil_append, readFrac_cons]
    rw [if_neg (by decide)]
  · have hq : nanos / 1000000 < 10 ^ 3 := by omega
    simp only [List.cons_append, readFrac_cons, if_pos rfl]
    rw [takeWhile_padNum_plus]
    rw [if_neg (padNum_ne_nil 3 _ (by norm_num))]
    rw [List.take_of_length_le (by rw [padNum_length]; norm_num)]
    rw [natValue_padNum 3 _ hq, padNum_length]
    rw [List.drop_left' (padNum_length 3 _)]
    norm_num
    omega
  · have hq : nanos / 1000 < 10 ^ 6 := by omega
    simp only [List.cons_append, readFrac_cons, if_pos rfl]
    rw [takeWhile_padNum_plus]
    rw [if_neg (padNum_ne_nil 6 _ (by norm_num))]
    rw [List.take_of_length_le (by rw [padNum_length]; norm_num)]
    rw [natValue_padNum 6 _ hq, padNum_length]
    rw [List.drop_left' (padNum_length 6 _)]
    norm_num
    omega
  · have hq : nanos < 10 ^ 9 := by omega
    simp only [List.cons_append, readFrac_cons, if_pos rfl]
    rw [takeWhile_padNum_plus]
    rw [if_neg (padNum_ne_nil 9 _ (by norm_num))]
    rw [List.take_of_length_le (by rw [padNum_length])]
    rw [natValue_padNum 9 _ hq, padNum_length]
    rw [List.drop_left' (padNum_length 9 _)]
    norm_num

theorem readOffset_print :
    readOffset ('+' :: '0' :: '0' :: ':' :: '0' :: '0' :: []) = some (0, []) := by
  decide

theorem parseRfc3339_printRfc3339 (i : Int) (hp : printable i) :
    parseRfc3339 (printRfc3339 i) = some i := by
  obtain ⟨hplo, hphi⟩ := hp
  have hdlo : -719528 ≤ i / 1000000000 / 86400 := by omega
  have hdhi : i / 1000000000 / 86400 ≤ 2932896 := by omega
  have hyb := cfdY_bounds (i / 1000000000 / 86400) hdlo hdhi
  have hmb := cfdM_bounds (i / 1000000000 / 86400)
  have hdb := cfdD_bounds (i / 1000000000 / 86400)
  have hY : ((cfdY (i / 1000000000 / 86400)).toNat : Int) =
      cfdY (i / 1000000000 / 86400) := Int.toNat_of_nonneg hyb.1
  have hM : ((cfdM (i / 1000000000 / 86400)).toNat : Int) =
      cfdM (i / 1000000000 / 86400) := Int.toNat_of_nonneg (by omega)
  have hD : ((cfdD (i / 1000000000 / 86400)).toNat : Int) =
      cfdD (i / 1000000000 / 86400) := Int.toNat_of_nonneg (by omega)
  have hdays : daysFromCivil (cfdY (i / 1000000000 / 86400))
      (cfdM (i / 1000000000 / 86400)) (cfdD (i / 1000000000 / 86400)) =
      i / 1000000000 / 86400 := daysFromCivil_civilFromDays _
  have hvalid : isValidDate (cfdY (i / 1000000000 / 86400)).toNat
      (cfdM (i / 1000000000 / 86400)).toNat
      (cfdD (i / 1000000000 / 86400)).toNat = true := by
    unfold isValidDate
    rw [hY, hM, hD, hdays]
    simp only [Bool.and_eq_true, decide_eq_true_eq, beq_iff_eq]
    refine ⟨⟨⟨⟨?_, ?_⟩, ?_⟩, ?_⟩, rfl⟩ <;> omega
  have hyn : (cfdY (i / 1000000000 / 86400)).toNat < 10000 := by omega
  have hmn : (cfdM (i / 1000000000 / 86400)).toNat < 100 := by omega
  have hdn : (cfdD (i / 1000000000 / 86400)).toNat < 100 := by omega
  have hhn : (i / 1000000000 % 86400).toNat / 3600 < 100 := by omega
  have hmin : (i / 1000000000 % 86400).toNat % 3600 / 60 < 100 := by omega
  have hsn : (i / 1000000000 % 86400).toNat % 60 < 100 := by omega
  have hnn : (i % 1000000000).toNat < 1000000000 := by omega
  unfold printRfc3339
  dsimp only
  simp only [List.cons_append, List.append_assoc]
  simp only [parseRfc3339, readYmd_print, readSep_T, readHms_print,
    readFrac_print, readOffset_print, hyn, hmn, hdn, hhn, hmin, hsn, hnn]
  split_ifs with hcond
  · congr 1
    rw [hY, hM, hD, hdays]
    omega
  · exact absurd ⟨by trivial, hvalid, by omega, by omega, by omega⟩ hcond

/-- Lexicographic comparison of strings by code point (identical to Rust's
byte-wise `Ord for String`, since UTF-8 preserves code-point order). -/
def compareStr : Str → Str → Ordering
  | [], [] => .eq
  | [], _ :: _ => .lt
  | _ :: _, [] => .gt
  | a :: as, b :: bs =>
    match compare a.toNat b.toNat with
    | .eq => compareStr as bs
    | o => o

/-- `HlcTimestamp` (src/lib.rs): the PostgreSQL-visible HLC value, with the
wall time kept as its ISO-8601 string representation. -/
structure HlcTimestamp where
  date_time : Str
  counter : Int
  node_id : Str
deriving DecidableEq, Repr

/-- The instant used by `Ord for HlcTimestamp`: the field parsed with
`DateTime::parse_from_rfc3339`, falling back to the epoch on failure. -/
def HlcTimestamp.dtOf (t : HlcTimestamp) : Int :=
  (parseRfc3339 t.date_time).getD 0

/-- `Ord for HlcTimestamp` (src/lib.rs): parsed wall time first, then
counter, then node id. -/
def HlcTimestamp.cmp (a b : HlcTimestamp) : Ordering :=
  match compare a.dtOf b.dtOf with
  | .eq =>
    match compare a.counter b.counter with
    | .eq => compareStr a.node_id b.node_id
    | o => o
  | o => o

/-- Split a string at its last occurrence of `sep`, if any. -/
def splitLast (sep : Char) : Str → Option (Str × Str)
  | [] => none
  | c :: cs =>
    match splitLast sep cs with
    | some (p, a) => some (c :: p, a)
    | none => if c = sep then some ([], cs) else none

/-- Rust `str::rsplitn(3, sep).collect::<Vec<_>>()`: up to three segments
from the right; the last element keeps any further separators. -/
def rsplitn3 (sep : Char) (s : Str) : List Str :=
  match splitLast sep s with
  | none => [s]
  | some (pre, last) =>
    match splitLast sep pre with
    | none => [last, pre]
    | some (pre2, mid) => [last, mid, pre2]

/-- Accumulate hexadecimal digits. -/
def parseHexNatAux : Nat → Str → Option Nat
  | acc, [] => some acc
  | acc, c :: s =>
    match hexDigitVal? c with
    | some d => parseHexNatAux (acc * 16 + d) s
    | none => none

/-- A non-empty all-hex string's value. -/
def parseHexNat : Str → Option Nat
  | [] => none
  | s => parseHexNatAux 0 s

/-- `i32::from_str_radix(s, 16)`: optional sign, hex digits, and an i32
range check (overflow is an error). -/
def fromStrRadix16 (s : Str) : Option Int :=
  match s with
  | [] => none
  | c :: rest =>
    if c = '+' then
      (parseHexNat rest).bind fun n =>
        if n ≤ 2147483647 then some (n : Int) else none
    else if c = '-' then
      (parseHexNat rest).bind fun n =>
        if n ≤ 2147483648 then some (-(n : Int)) else none
    else
      (parseHexNat (c :: rest)).bind fun n =>
        if n ≤ 2147483647 then some (n : Int) else none

/-- Hex digits of `n`, most significant first, empty for zero (`fuel` bounds
the recursion; 8 digits suffice for 32 bits). -/
def hexReprAux : Nat → Nat → Str
  | 0, _ => []
  | fuel + 1, n =>
    if n = 0 then [] else hexReprAux fuel (n / 16) ++ [hexDigitChar (n % 16)]

/-- Rust `{:04X}`: uppercase hex, zero-padded to at least four digits. -/
def formatHex4 (n : Nat) : Str :=
  let ds := hexReprAux 8 n
  List.replicate (4 - ds.length) '0' ++ ds

/-- Rust `{:04X}` applied to an `i32`: formats the two's-complement bit
pattern. -/
def formatHexI32 (c : Int) : Str := formatHex4 ((c % 4294967296).toNat)

/-- The error cases of `HlcTimestamp::parse` (a `Result<_, String>` in the
source; the three distinct message strings are modelled as constructors). -/
inductive ParseError where
  | invalidFormat
  | invalidCounter
  | invalidDatetime
deriving DecidableEq, Repr

deriving instance DecidableEq for Except

/-- `HlcTimestamp::parse` (src/lib.rs): split from the right into at most
three `-`-separated parts, take node id, hex counter, and validate the
remainder as RFC 3339. -/
def HlcTimestamp.parse (timestamp : Str) : Except ParseError HlcTimestamp :=
  match rsplitn3 '-' timestamp with
  | [p0, p1, p2] =>
    match fromStrRadix16 p1 with
    | none => .error .invalidCounter
    | some counter =>
      match parseRfc3339 p2 with
      | none => .error .invalidDatetime
      | some _ => .ok ⟨p2, counter, p0⟩
  | _ => .error .invalidFormat

/-- `HlcTimestamp::to_string` (src/lib.rs): `format!("{}-{:04X}-{}", ...)`. -/
def HlcTimestamp.toString (t : HlcTimestamp) : Str :=
  t.date_time ++ '-' :: (formatHexI32 t.counter ++ '-' :: t.node_id)

/-- `HlcState` (src/lib.rs): the mutable per-node record, wall time held as
a `chrono` UTC instant. -/
structure HlcState where
  date_time : Int
  counter : Int
  node_id : Str
deriving DecidableEq, Repr

/-- `HlcState::new`: epoch wall time (`DateTime::from_timestamp(0, 0)`),
counter 0. -/
def HlcState.new (node_id : Str) : HlcState := ⟨0, 0, node_id⟩

/-- `HlcTimestamp::from_state`: renders the instant with `to_rfc3339`. -/
def HlcTimestamp.fromState (s : HlcState) : HlcTimestamp :=
  ⟨printRfc3339 s.date_time, s.counter, s.node_id⟩

/-- The `GLOBAL_HLCS` map, modelled as a total function: a node id that was
never stored maps to the zero state that `get_or_create_hlc_state` would
lazily insert for it.  This is observationally equivalent to the `HashMap`,
since every read goes through `get_or_create_hlc_state` and `hlc_reset`
merely restores the lazily created zero state. -/
def Store := Str → HlcState

/-- The freshly initialised map. -/
def initialStore : Store := fun n => HlcState.new n

/-- `get_or_create_hlc_state` (src/lib.rs). -/
def getOrCreateHlcState (store : Store) (n : Str) : HlcState := store n

/-- `update_hlc_state` (src/lib.rs). -/
def updateHlcState (store : Store) (n : Str) (st : HlcState) : Store :=
  fun m => if m = n then st else store m

/-- `HlcError` (src/lib.rs), plus the wall-time parse failure that the
`?` operator propagates in `hlc_increment`/`hlc_merge`/`hlc_from_date`. -/
inductive HlcError where
  | clockDrift (driftMinutes : Int)
  | overflow (counter : Int)
  | duplicateNode (nodeId : Str)
  | invalidDatetime
deriving DecidableEq, Repr

/-- `MAX_COUNTER` (src/lib.rs). -/
def MAX_COUNTER : Int := 0xFFFF

/-- `MAX_DRIFT_MINUTES` (src/lib.rs). -/
def MAX_DRIFT_MINUTES : Int := 1

/-- Rust `i64` division: truncation toward zero (divisor positive here). -/
def tdivInt (a b : Int) : Int := if 0 ≤ a then a / b else -((-a) / b)

/-- `chrono::TimeDelta::num_minutes` of a signed nanosecond duration:
whole seconds (truncated toward zero), then whole minutes. -/
def numMinutes (ns : Int) : Int := tdivInt (tdivInt ns 1000000000) 60

/-- The `wall_time` resolution shared by `hlc_increment` and `hlc_merge`:
parse the supplied string, or read the system clock (`now`, made an
explicit parameter). -/
def resolveWallTime (wall_time : Option Str) (now : Int) : Except HlcError Int :=
  match wall_time with
  | some wt =>
    match parseRfc3339 wt with
    | some i => .ok i
    | none => .error .invalidDatetime
  | none => .ok now

/-- `hlc_zero` (src/lib.rs). -/
def hlcZero (store : Store) (node_id : Str) : Store × HlcTimestamp :=
  let state : HlcState := ⟨0, 0, node_id⟩
  (updateHlcState store node_id state, HlcTimestamp.fromState state)

/-- `hlc_from_date` (src/lib.rs). -/
def hlcFromDate (store : Store) (date_time : Str) (node_id : Str) :
    Store × Except HlcError HlcTimestamp :=
  match parseRfc3339 date_time with
  | none => (store, .error .invalidDatetime)
  | some dt =>
    let state : HlcState := ⟨dt, 0, node_id⟩
    (updateHlcState store node_id state, .ok (HlcTimestamp.fromState state))

/-- `hlc_now` (src/lib.rs), with the `Utc::now()` reading as an explicit
parameter. -/
def hlcNow (store : Store) (node_id : Str) (now : Int) : Store × HlcTimestamp :=
  let state : HlcState := ⟨now, 0, node_id⟩
  (updateHlcState store node_id state, HlcTimestamp.fromState state)

/-- `hlc_parse` (src/lib.rs): propagates `HlcTimestamp::parse` outcomes. -/
def hlcParse (timestamp : Str) : Except ParseError HlcTimestamp :=
  HlcTimestamp.parse timestamp

/-- `InOutFuncs::input` for `HlcTimestamp` (src/lib.rs): parse, falling
back to a fixed default value on failure. -/
def hlcInput (s : Str) : HlcTimestamp :=
  match HlcTimestamp.parse s with
  | .ok t => t
  | .error _ =>
    ⟨"1970-01-01T00:00:00Z".toList, 0, "unknown".toList⟩

/-- `hlc_increment` (src/lib.rs).  Returns the map after the call together
with the call's result; every error path leaves the map as it was. -/
def hlcIncrement (store : Store) (node_id : Str) (wall_time : Option Str)
    (now : Int) : Store × Except HlcError HlcTimestamp :=
  let current_state := getOrCreateHlcState store node_id
  match resolveWallTime wall_time now with
  | .error e => (store, .error e)
  | .ok w =>
    let date_time_new :=
      if w > current_state.date_time then w else current_state.date_time
    let counter_new :=
      if date_time_new = current_state.date_time then current_state.counter + 1
      else 0
    let drift := date_time_new - w
    if numMinutes drift > MAX_DRIFT_MINUTES then
      (store, .error (.clockDrift (numMinutes drift)))
    else if counter_new > MAX_COUNTER then
      (store, .error (.overflow counter_new))
    else
      let st : HlcState := ⟨date_time_new, counter_new, current_state.node_id⟩
      (updateHlcState store node_id st, .ok (HlcTimestamp.fromState st))

/-- `hlc_merge` (src/lib.rs). -/
def hlcMerge (store : Store) (local_node_id : Str) (remote : HlcTimestamp)
    (wall_time : Option Str) (now : Int) :
    Store × Except HlcError HlcTimestamp :=
  let local_state := getOrCreateHlcState store local_node_id
  match resolveWallTime wall_time now with
  | .error e => (store, .error e)
  | .ok w =>
    match parseRfc3339 remote.date_time with
    | none => (store, .error .invalidDatetime)
    | some remote_dt =>
      if remote_dt < local_state.date_time ∨
          (remote_dt = local_state.date_time ∧
            remote.counter ≤ local_state.counter) then
        (store, .ok (HlcTimestamp.fromState local_state))
      else if local_node_id = remote.node_id then
        (store, .error (.duplicateNode local_node_id))
      else if numMinutes (remote_dt - w) > MAX_DRIFT_MINUTES then
        (store, .error (.clockDrift (numMinutes (remote_dt - w))))
      else
        let st : HlcState := ⟨remote_dt, remote.counter, local_state.node_id⟩
        (updateHlcState store local_node_id st, .ok (HlcTimestamp.fromState st))

/-- `hlc_to_string` (src/lib.rs). -/
def hlcToString (hlc : HlcTimestamp) : Str := hlc.toString

/-- `hlc_compare` (src/lib.rs). -/
def hlcCompare (left right : HlcTimestamp) : Int :=
  match left.cmp right with
  | .lt => -1
  | .eq => 0
  | .gt => 1

/-- `hlc_lt` (src/lib.rs): `left < right` via the derived `PartialOrd`. -/
def hlcLt (left right : HlcTimestamp) : Bool := left.cmp right == Ordering.lt

/-- `hlc_gt` (src/lib.rs). -/
def hlcGt (left right : HlcTimestamp) : Bool := left.cmp right == Ordering.gt

/-- `hlc_eq` (src/lib.rs): the derived structural `PartialEq`. -/
def hlcEq (left right : HlcTimestamp) : Bool := decide (left = right)

/-- `hlc_lte` (src/lib.rs). -/
def hlcLte (left right : HlcTimestamp) : Bool :=
  !(left.cmp right == Ordering.gt)

/-- `hlc_gte` (src/lib.rs). -/
def hlcGte (left right : HlcTimestamp) : Bool :=
  !(left.cmp right == Ordering.lt)

/-- `hlc_reset` (src/lib.rs): removing the entry restores the lazily
created zero state. -/
def hlcReset (store : Store) (node_id : Str) : Store :=
  updateHlcState store node_id (HlcState.new node_id)

/-- `hlc_get_state` (src/lib.rs). -/
def hlcGetState (store : Store) (node_id : Str) : HlcTimestamp :=
  HlcTimestamp.fromState (getOrCreateHlcState store node_id)

/-- The successor state computed by a successful `hlc_increment`. -/
def incrementState (cur : HlcState) (w : Int) : HlcState :=
  { date_time := max cur.date_time w
    counter :=
      if max cur.date_time w = cur.date_time then cur.counter + 1 else 0
    node_id := cur.node_id }

/-- `hlc_increment`, rephrased through `incrementState` once the wall time
has resolved. -/
theorem hlcIncrement_eq (store : Store) (n : Str) (wt : Option Str)
    (now w : Int) (hw : resolveWallTime wt now = .ok w) :
    hlcIncrement store n wt now =
      if numMinutes ((incrementState (store n) w).date_time - w) >
          MAX_DRIFT_MINUTES then
        (store, .error (.clockDrift
          (numMinutes ((incrementState (store n) w).date_time - w))))
      else if (incrementState (store n) w).counter > MAX_COUNTER then
        (store, .error (.overflow (incrementState (store n) w).counter))
      else (updateHlcState store n (incrementState (store n) w),
        .ok (HlcTimestamp.fromState (incrementState (store n) w))) := by
  unfold hlcIncrement getOrCreateHlcState
  rw [hw]
  dsimp only
  rw [show (if w > (store n).date_time then w else (store n).date_time) =
    max (store n).date_time w from by split_ifs <;> omega]
  rfl

/-- `hlc_merge`, rephrased once the wall time and the remote instant have
resolved. -/
theorem hlcMerge_eq (store : Store) (n : Str) (remote : HlcTimestamp)
    (wt : Option Str) (now w rdt : Int)
    (hw : resolveWallTime wt now = .ok w)
    (hr : parseRfc3339 remote.date_time = some rdt) :
    hlcMerge store n remote wt now =
      if rdt < (store n).date_time ∨
          (rdt = (store n).date_time ∧ remote.counter ≤ (store n).counter) then
        (store, .ok (HlcTimestamp.fromState (store n)))
      else if n = remote.node_id then
        (store, .error (.duplicateNode n))
      else if numMinutes (rdt - w) > MAX_DRIFT_MINUTES then
        (store, .error (.clockDrift (numMinutes (rdt - w))))
      else
        (updateHlcState store n ⟨rdt, remote.counter, (store n).node_id⟩,
          .ok (HlcTimestamp.fromState ⟨rdt, remote.counter, (store n).node_id⟩)) := by
  unfold hlcMerge getOrCreateHlcState
  rw [hw, hr]

theorem updateHlcState_same (store : Store) (n : Str) (st : HlcState) :
    updateHlcState store n st n = st := by
  simp [updateHlcState]

theorem compareStr_self (s : Str) : compareStr s s = .eq := by
  induction s with
  | nil => rfl
  | cons c cs ih =>
    unfold compareStr
    rw [compare_eq_iff_eq.mpr rfl, ih]

theorem char_toNat_inj {c d : Char} (h : c.toNat = d.toNat) : c = d := by
  apply Char.ext
  apply UInt32.eq_of_val_eq
  exact Fin.val_injective h

theorem compareStr_eq (a : Str) : ∀ b, compareStr a b = .eq → a = b := by
  induction a with
  | nil =>
    intro b h
    cases b with
    | nil => rfl
    | cons d ds => simp [compareStr] at h
  | cons c cs ih =>
    intro b h
    cases b with
    | nil => simp [compareStr] at h
    | cons d ds =>
      unfold compareStr at h
      revert h
      cases hcd : compare c.toNat d.toNat <;> intro h
      · simp at h
      · rw [char_toNat_inj (compare_eq_iff_eq.mp hcd), ih ds h]
      · simp at h

theorem dtOf_fromState (s : HlcState) (h : printable s.date_time) :
    (HlcTimestamp.fromState s).dtOf = s.date_time := by
  unfold HlcTimestamp.dtOf HlcTimestamp.fromState
  dsimp only
  rw [parseRfc3339_printRfc3339 s.date_time h]
  rfl

/-- Lexicographic order on clock states: wall time first, then counter. -/
def lexLe (s t : HlcState) : Prop :=
  s.date_time < t.date_time ∨
    (s.date_time = t.date_time ∧ s.counter ≤ t.counter)

/-- Strict lexicographic order on clock states. -/
def lexLt (s t : HlcState) : Prop :=
  s.date_time < t.date_time ∨
    (s.date_time = t.date_time ∧ s.counter < t.counter)

theorem fromState_cmp (s t : HlcState) (hn : s.node_id = t.node_id)
    (hs : printable s.date_time) (ht : printable t.date_time) :
    (HlcTimestamp.fromState s).cmp (HlcTimestamp.fromState t) =
      (match compare s.date_time t.date_time with
       | .eq => compare s.counter t.counter
       | o => o) := by
  unfold HlcTimestamp.cmp
  rw [dtOf_fromState s hs, dtOf_fromState t ht]
  show (match compare s.date_time t.date_time with
    | .eq =>
      match compare (HlcTimestamp.fromState s).counter
          (HlcTimestamp.fromState t).counter with
      | .eq => compareStr (HlcTimestamp.fromState s).node_id
          (HlcTimestamp.fromState t).node_id
      | o => o
    | o => o) = _
  cases hdt : compare s.date_time t.date_time
  · rfl
  · show (match compare s.counter t.counter with
      | .eq => compareStr s.node_id t.node_id
      | o => o) = compare s.counter t.counter
    cases hc : compare s.counter t.counter
    · rfl
    · show compareStr s.node_id t.node_id = Ordering.eq
      rw [hn, compareStr_self]
    · rfl
  · rfl

theorem fromState_lte (s t : HlcState) (hn : s.node_id = t.node_id)
    (hs : printable s.date_time) (ht : printable t.date_time)
    (h : lexLe s t) :
    hlcLte (HlcTimestamp.fromState s) (HlcTimestamp.fromState t) = true := by
  unfold hlcLte
  rw [fromState_cmp s t hn hs ht]
  rcases h with h | ⟨h1, h2⟩
  · rw [compare_lt_iff_lt.mpr h]
    rfl
  · rw [compare_eq_iff_eq.mpr h1]
    rcases lt_or_eq_of_le h2 with hc | hc
    · rw [compare_lt_iff_lt.mpr hc]
      rfl
    · rw [compare_eq_iff_eq.mpr hc]
      rfl

theorem fromState_lt (s t : HlcState) (hn : s.node_id = t.node_id)
    (hs : printable s.date_time) (ht : printable t.date_time)
    (h : lexLt s t) :
    hlcLt (HlcTimestamp.fromState s) (HlcTimestamp.fromState t) = true := by
  unfold hlcLt
  rw [fromState_cmp s t hn hs ht]
  rcases h with h | ⟨h1, h2⟩
  · rw [compare_lt_iff_lt.mpr h]
    rfl
  · rw [compare_eq_iff_eq.mpr h1, compare_lt_iff_lt.mpr h2]
    rfl

/-- One clock operation on a fixed node, with the ambient `Utc::now()`
reading carried explicitly. -/
inductive HlcOp where
  | increment (wall_time : Option Str) (now : Int)
  | mergeRemote (remote : HlcTimestamp) (wall_time : Option Str) (now : Int)
  | getState

/-- Apply one operation for node `n`, returning the new map and the
Timestamp Value the call returned (`none` when it failed). -/
def applyOp (store : Store) (n : Str) : HlcOp → Store × Option HlcTimestamp
  | .increment wt now =>
    ((hlcIncrement store n wt now).1, (hlcIncrement store n wt now).2.toOption)
  | .mergeRemote remote wt now =>
    ((hlcMerge store n remote wt now).1,
      (hlcMerge store n remote wt now).2.toOption)
  | .getState => (store, some (hlcGetState store n))

/-- Run a sequence of operations, collecting the returned values. -/
def runOps (store : Store) (n : Str) : List HlcOp → Store × List HlcTimestamp
  | [] => (store, [])
  | op :: ops =>
    ((runOps (applyOp store n op).1 n ops).1,
      (applyOp store n op).2.elim (runOps (applyOp store n op).1 n ops).2
        (· :: (runOps (applyOp store n op).1 n ops).2))

/-- Wall-time inputs stay inside the RFC 3339-printable range. -/
def ValidOp : HlcOp → Prop
  | .increment wt now =>
    (wt = none → printable now) ∧
    ∀ s i, wt = some s → parseRfc3339 s = some i → printable i
  | .mergeRemote remote _ _ =>
    ∀ i, parseRfc3339 remote.date_time = some i → printable i
  | .getState => True

/-- The per-node invariant: stored node id matches the key and the stored
instant is printable. -/
def StateInv (n : Str) (st : HlcState) : Prop :=
  st.node_id = n ∧ printable st.date_time

theorem lexLe_refl (s : HlcState) : lexLe s s := Or.inr ⟨rfl, le_refl _⟩

theorem lexLe_trans {s t u : HlcState} (h1 : lexLe s t) (h2 : lexLe t u) :
    lexLe s u := by
  unfold lexLe at *
  omega

theorem resolve_printable (wt : Option Str) (now w : Int)
    (hw : resolveWallTime wt now = .ok w)
    (h1 : wt = none → printable now)
    (h2 : ∀ s i, wt = some s → parseRfc3339 s = some i → printable i) :
    printable w := by
  cases wt with
  | none =>
    simp only [resolveWallTime] at hw
    injection hw with hw
    rw [← hw]
    exact h1 rfl
  | some s =>
    simp only [resolveWallTime] at hw
    cases hp : parseRfc3339 s with
    | none =>
      rw [hp] at hw
      simp at hw
    | some i =>
      rw [hp] at hw
      simp only [Except.ok.injEq] at hw
      rw [← hw]
      exact h2 s i rfl hp

theorem applyOp_step (store : Store) (n : Str) (op : HlcOp) (hv : ValidOp op)
    (hinv : StateInv n (store n)) :
    StateInv n ((applyOp store n op).1 n) ∧
    lexLe (store n) ((applyOp store n op).1 n) ∧
    ((applyOp store n op).2 = none → (applyOp store n op).1 = store) ∧
    (∀ v, (applyOp store n op).2 = some v →
      v = HlcTimestamp.fromState ((applyOp store n op).1 n)) := by
  cases op with
  | increment wt now =>
    cases hw : resolveWallTime wt now with
    | error e =>
      have he : hlcIncrement store n wt now = (store, .error e) := by
        unfold hlcIncrement getOrCreateHlcState
        rw [hw]
      simp only [applyOp, he]
      exact ⟨hinv, lexLe_refl _, fun _ => by trivial,
        fun v hv' => by simp [Except.toOption] at hv'⟩
    | ok w =>
      have hpw : printable w := resolve_printable wt now w hw hv.1 hv.2
      have heq := hlcIncrement_eq store n wt now w hw
      simp only [applyOp, heq]
      split_ifs with hd hc
      · dsimp only
        exact ⟨hinv, lexLe_refl _, fun _ => by trivial,
          fun v hv' => by simp [Except.toOption] at hv'⟩
      · dsimp only
        exact ⟨hinv, lexLe_refl _, fun _ => by trivial,
          fun v hv' => by simp [Except.toOption] at hv'⟩
      · dsimp only
        refine ⟨?_, ?_, ?_, ?_⟩
        · rw [updateHlcState_same]
          refine ⟨hinv.1, ?_⟩
          have hps := hinv.2
          unfold printable at *
          unfold incrementState
          dsimp only
          omega
        · rw [updateHlcState_same]
          unfold lexLe incrementState
          dsimp only
          split_ifs with hEq <;> omega
        · intro hnone
          exact Option.noConfusion hnone
        · intro v hv'
          simp only [Except.toOption] at hv'
          injection hv' with hv'
          rw [updateHlcState_same, ← hv']
  | mergeRemote remote wt now =>
    cases hw : resolveWallTime wt now with
    | error e =>
      have he : hlcMerge store n remote wt now = (store, .error e) := by
        unfold hlcMerge getOrCreateHlcState
        rw [hw]
      simp only [applyOp, he]
      exact ⟨hinv, lexLe_refl _, fun _ => by trivial,
        fun v hv' => by simp [Except.toOption] at hv'⟩
    | ok w =>
      cases hr : parseRfc3339 remote.date_time with
      | none =>
        have he : hlcMerge store n remote wt now =
            (store, .error .invalidDatetime) := by
          unfold hlcMerge getOrCreateHlcState
          rw [hw, hr]
        simp only [applyOp, he]
        exact ⟨hinv, lexLe_refl _, fun _ => by trivial,
          fun v hv' => by simp [Except.toOption] at hv'⟩
      | some rdt =>
        have hprd : printable rdt := hv rdt hr
        have heq := hlcMerge_eq store n remote wt now w rdt hw hr
        simp only [applyOp, heq]
        split_ifs with hdom hdup hdrift
        · dsimp only
          refine ⟨hinv, lexLe_refl _, fun hnone => by trivial, fun v hv' => ?_⟩
          simp only [Except.toOption] at hv'
          injection hv' with hv'
          rw [← hv']
        · dsimp only
          exact ⟨hinv, lexLe_refl _, fun _ => by trivial,
            fun v hv' => by simp [Except.toOption] at hv'⟩
        · dsimp only
          exact ⟨hinv, lexLe_refl _, fun _ => by trivial,
            fun v hv' => by simp [Except.toOption] at hv'⟩
        · dsimp only
          refine ⟨?_, ?_, ?_, ?_⟩
          · rw [updateHlcState_same]
            exact ⟨hinv.1, hprd⟩
          · rw [updateHlcState_same]
            unfold lexLe
            dsimp only
            omega
          · intro hnone
            exact Option.noConfusion hnone
          · intro v hv'
            simp only [Except.toOption] at hv'
            injection hv' with hv'
            rw [updateHlcState_same, ← hv']
  | getState =>
    simp only [applyOp]
    refine ⟨hinv, lexLe_refl _, fun h => by trivial, fun v hv' => ?_⟩
    injection hv' with hv'
    exact hv'.symm

theorem runOps_chain (n : Str) (ops : List HlcOp) :
    ∀ store : Store, StateInv n (store n) → (∀ op ∈ ops, ValidOp op) →
      StateInv n ((runOps store n ops).1 n) ∧
      lexLe (store n) ((runOps store n ops).1 n) ∧
      List.Chain' (fun a b => hlcLte a b = true) (runOps store n ops).2 ∧
      (∀ v, (runOps store n ops).2.head? = some v →
        hlcLte (HlcTimestamp.fromState (store n)) v = true) := by
  induction ops with
  | nil =>
    intro store hinv _
    exact ⟨hinv, lexLe_refl _, List.chain'_nil, fun v h => by simp [runOps] at h⟩
  | cons op ops ih =>
    intro store hinv hvs
    obtain ⟨sinv, slex, snone, ssome⟩ :=
      applyOp_step store n op (hvs op (List.mem_cons_self _ _)) hinv
    obtain ⟨finv, flex, fchain, fhead⟩ :=
      ih (applyOp store n op).1 sinv
        (fun o ho => hvs o (List.mem_cons_of_mem _ ho))
    refine ⟨finv, lexLe_trans slex flex, ?_, ?_⟩
    · show List.Chain' _ ((applyOp store n op).2.elim
        (runOps (applyOp store n op).1 n ops).2
        (· :: (runOps (applyOp store n op).1 n ops).2))
      cases hv2 : (applyOp store n op).2 with
      | none => exact fchain
      | some v =>
        refine List.chain'_cons'.mpr ⟨?_, fchain⟩
        intro b hb
        rw [ssome v hv2]
        exact fhead b hb
    · show ∀ v, ((applyOp store n op).2.elim
        (runOps (applyOp store n op).1 n ops).2
        (· :: (runOps (applyOp store n op).1 n ops).2)).head? = some v → _
      cases hv2 : (applyOp store n op).2 with
      | none =>
        intro v hval
        simp only [Option.elim] at hval
        rw [snone hv2] at hval fhead
        exact fhead v hval
      | some v0 =>
        intro v hval
        simp only [Option.elim, List.head?] at hval
        injection hval with hval
        rw [← hval, ssome v0 hv2]
        exact fromState_lte (store n) ((applyOp store n op).1 n)
          (by rw [hinv.1, sinv.1]) hinv.2 sinv.2 slex

theorem runOps_length_le (n : Str) (ops : List HlcOp) :
    ∀ store : Store, ((runOps store n ops).2).length ≤ ops.length := by
  induction ops with
  | nil =>
    intro store
    simp [runOps]
  | cons op ops ih =>
    intro store
    show ((applyOp store n op).2.elim
      (runOps (applyOp store n op).1 n ops).2
      (· :: (runOps (applyOp store n op).1 n ops).2)).length ≤ ops.length + 1
    cases (applyOp store n op).2 with
    | none =>
      simp only [Option.elim]
      exact le_trans (ih _) (by omega)
    | some v =>
      simp only [Option.elim, List.length_cons]
      exact Nat.succ_le_succ (ih _)

theorem increment_some_strict (store : Store) (n : Str) (w : Int)
    (v : HlcTimestamp)
    (hs : (applyOp store n (.increment none w)).2 = some v) :
    lexLt (store n) ((applyOp store n (.increment none w)).1 n) := by
  have hw : resolveWallTime none w = .ok w := rfl
  have heq := hlcIncrement_eq store n none w w hw
  simp only [applyOp, heq] at hs ⊢
  split_ifs at hs ⊢ with hd hc
  · exact absurd hs (by simp [Except.toOption])
  · exact absurd hs (by simp [Except.toOption])
  · dsimp only
    rw [updateHlcState_same]
    unfold lexLt incrementState
    dsimp only
    split_ifs with hEq <;> omega

theorem runIncr_strict (n : Str) (ws : List Int) :
    ∀ store : Store, StateInv n (store n) → (∀ w ∈ ws, printable w) →
      ((runOps store n (ws.map (fun w => HlcOp.increment none w))).2).length =
        ws.length →
      StateInv n
        ((runOps store n (ws.map (fun w => HlcOp.increment none w))).1 n) ∧
      List.Chain' (fun a b => hlcLt a b = true)
        (runOps store n (ws.map (fun w => HlcOp.increment none w))).2 ∧
      (∀ v, ((runOps store n
          (ws.map (fun w => HlcOp.increment none w))).2).head? = some v →
        hlcLt (HlcTimestamp.fromState (store n)) v = true) := by
  induction ws with
  | nil =>
    intro store hinv _ _
    exact ⟨hinv, List.chain'_nil, fun v h => by simp [runOps] at h⟩
  | cons w ws ih =>
    intro store hinv hprint hlen
    have hop : ValidOp (HlcOp.increment none w) :=
      ⟨fun _ => hprint w (List.mem_cons_self _ _),
       fun s i hc => Option.noConfusion hc⟩
    obtain ⟨sinv, slex, snone, ssome⟩ := applyOp_step store n _ hop hinv
    simp only [List.map_cons] at hlen ⊢
    cases hv2 : (applyOp store n (HlcOp.increment none w)).2 with
    | none =>
      exfalso
      have hle := runOps_length_le n
        (ws.map (fun w => HlcOp.increment none w))
        (applyOp store n (HlcOp.increment none w)).1
      simp only [runOps, hv2, Option.elim, List.length_map] at hlen
      simp only [List.length_map] at hle
      simp only [List.length_cons] at hlen
      omega
    | some v =>
      have hlen' : ((runOps (applyOp store n (HlcOp.increment none w)).1 n
          (ws.map (fun w => HlcOp.increment none w))).2).length = ws.length := by
        simp only [runOps, hv2, Option.elim, List.length_cons] at hlen
        omega
      obtain ⟨finv, fchain, fhead⟩ :=
        ih (applyOp store n (HlcOp.increment none w)).1 sinv
          (fun x hx => hprint x (List.mem_cons_of_mem _ hx)) hlen'
      have hstrict : lexLt (store n)
          ((applyOp store n (HlcOp.increment none w)).1 n) :=
        increment_some_strict store n w v hv2
      refine ⟨?_, ?_, ?_⟩
      · show StateInv n ((runOps (applyOp store n (HlcOp.increment none w)).1 n
          (ws.map (fun w => HlcOp.increment none w))).1 n)
        exact finv
      · show List.Chain' _ ((applyOp store n (HlcOp.increment none w)).2.elim
          (runOps (applyOp store n (HlcOp.increment none w)).1 n
            (ws.map (fun w => HlcOp.increment none w))).2
          (· :: (runOps (applyOp store n (HlcOp.increment none w)).1 n
            (ws.map (fun w => HlcOp.increment none w))).2))
        rw [hv2]
        refine List.chain'_cons'.mpr ⟨?_, fchain⟩
        intro b hb
        rw [ssome v hv2]
        exact fhead b hb
      · show ∀ u, ((applyOp store n (HlcOp.increment none w)).2.elim
          (runOps (applyOp store n (HlcOp.increment none w)).1 n
            (ws.map (fun w => HlcOp.increment none w))).2
          (· :: (runOps (applyOp store n (HlcOp.increment none w)).1 n
            (ws.map (fun w => HlcOp.increment none w))).2)).head? = some u → _
        rw [hv2]
        intro u hval
        simp only [Option.elim, List.head?] at hval
        injection hval with hval
        rw [← hval, ssome v hv2]
        exact fromState_lt (store n)
          ((applyOp store n (HlcOp.increment none w)).1 n)
          (by rw [hinv.1, sinv.1]) hinv.2 sinv.2 hstrict

theorem splitLast_of_not_mem (sep : Char) (s : Str) (h : sep ∉ s) :
    splitLast sep s = none := by
  induction s with
  | nil => rfl
  | cons c cs ih =>
    unfold splitLast
    rw [ih (fun hc => h (List.mem_cons_of_mem _ hc))]
    rw [if_neg (fun hc => h (by rw [← hc]; exact List.mem_cons_self _ _))]

theorem splitLast_none_not_mem (sep : Char) (s : Str) :
    splitLast sep s = none → sep ∉ s := by
  induction s with
  | nil => intro _ hm; cases hm
  | cons c cs ih =>
    intro h
    unfold splitLast at h
    revert h
    cases hs : splitLast sep cs with
    | some pa => intro h; cases h
    | none =>
      intro h
      split_ifs at h with hc
      intro hm
      rcases List.mem_cons.mp hm with hm | hm
      · exact hc hm.symm
      · exact ih hs hm

theorem splitLast_suffix (sep : Char) (s : Str) :
    ∀ p a, splitLast sep s = some (p, a) → sep ∉ a := by
  induction s with
  | nil => intro p a h; cases h
  | cons c cs ih =>
    intro p a h
    unfold splitLast at h
    revert h
    cases hs : splitLast sep cs with
    | some pa =>
      intro h
      injection h with h
      rw [Prod.mk.injEq] at h
      rw [← h.2]
      exact ih pa.1 pa.2 (by rw [hs])
    | none =>
      intro h
      split_ifs at h with hc
      injection h with h
      rw [Prod.mk.injEq] at h
      rw [← h.2]
      exact splitLast_none_not_mem sep cs hs

theorem splitLast_append (sep : Char) (x y : Str) (hy : sep ∉ y) :
    splitLast sep (x ++ sep :: y) = some (x, y) := by
  induction x with
  | nil =>
    simp only [List.nil_append]
    unfold splitLast
    rw [splitLast_of_not_mem sep y hy, if_pos rfl]
  | cons c cs ih =>
    simp only [List.cons_append]
    unfold splitLast
    rw [ih]

theorem hexDigitVal?_hexDigitChar (d : Nat) :
    hexDigitVal? (hexDigitChar d) = some (d % 16) := by
  rcases (by omega : d % 16 = 0 ∨ d % 16 = 1 ∨ d % 16 = 2 ∨ d % 16 = 3 ∨
      d % 16 = 4 ∨ d % 16 = 5 ∨ d % 16 = 6 ∨ d % 16 = 7 ∨ d % 16 = 8 ∨
      d % 16 = 9 ∨ d % 16 = 10 ∨ d % 16 = 11 ∨ d % 16 = 12 ∨ d % 16 = 13 ∨
      d % 16 = 14 ∨ d % 16 = 15) with
    h | h | h | h | h | h | h | h | h | h | h | h | h | h | h | h <;>
    · unfold hexDigitChar; rw [h]; decide

theorem hexDigitChar_not_sign (d : Nat) :
    hexDigitChar d ≠ '+' ∧ hexDigitChar d ≠ '-' := by
  rcases (by omega : d % 16 = 0 ∨ d % 16 = 1 ∨ d % 16 = 2 ∨ d % 16 = 3 ∨
      d % 16 = 4 ∨ d % 16 = 5 ∨ d % 16 = 6 ∨ d % 16 = 7 ∨ d % 16 = 8 ∨
      d % 16 = 9 ∨ d % 16 = 10 ∨ d % 16 = 11 ∨ d % 16 = 12 ∨ d % 16 = 13 ∨
      d % 16 = 14 ∨ d % 16 = 15) with
    h | h | h | h | h | h | h | h | h | h | h | h | h | h | h | h <;>
    · unfold hexDigitChar; rw [h]; decide

theorem mem_hexReprAux_not_sign (fuel n : Nat) (c : Char)
    (hc : c ∈ hexReprAux fuel n) : c ≠ '+' ∧ c ≠ '-' := by
  induction fuel generalizing n with
  | zero => cases hc
  | succ fuel ih =>
    unfold hexReprAux at hc
    split_ifs at hc with h0
    · cases hc
    · rcases List.mem_append.mp hc with hm | hm
      · exact ih (n / 16) hm
      · rcases List.mem_singleton.mp hm with rfl
        exact hexDigitChar_not_sign _

theorem mem_formatHex4_not_sign (n : Nat) (c : Char) (hc : c ∈ formatHex4 n) :
    c ≠ '+' ∧ c ≠ '-' := by
  unfold formatHex4 at hc
  rcases List.mem_append.mp hc with hm | hm
  · rcases List.eq_of_mem_replicate hm with rfl
    exact ⟨by decide, by decide⟩
  · exact mem_hexReprAux_not_sign 8 n c hm

theorem parseHexNatAux_nil (acc : Nat) : parseHexNatAux acc [] = some acc := rfl

theorem parseHexNatAux_cons (acc : Nat) (c : Char) (s : Str) :
    parseHexNatAux acc (c :: s) =
      match hexDigitVal? c with
      | some d => parseHexNatAux (acc * 16 + d) s
      | none => none := rfl

theorem parseHexNatAux_replicate (k acc : Nat) (r : Str) :
    parseHexNatAux acc (List.replicate k '0' ++ r) =
      parseHexNatAux (acc * 16 ^ k) r := by
  induction k generalizing acc with
  | zero => simp
  | succ k ih =>
    simp only [List.replicate_succ, List.cons_append]
    rw [parseHexNatAux_cons,
      show hexDigitVal? '0' = some 0 from by decide]
    show parseHexNatAux (acc * 16 + 0) (List.replicate k '0' ++ r) = _
    rw [ih (acc * 16 + 0)]
    congr 1
    ring

theorem parseHexNatAux_hexRepr (fuel : Nat) :
    ∀ n, n < 16 ^ fuel → ∀ acc r,
      parseHexNatAux acc (hexReprAux fuel n ++ r) =
        parseHexNatAux (acc * 16 ^ (hexReprAux fuel n).length + n) r := by
  induction fuel with
  | zero =>
    intro n hn acc r
    have h0 : n = 0 := by omega
    subst h0
    simp [hexReprAux]
  | succ fuel ih =>
    intro n hn acc r
    by_cases h0 : n = 0
    · subst h0
      have hrepr : hexReprAux (fuel + 1) 0 = [] := by
        rw [show hexReprAux (fuel + 1) 0 =
          (if 0 = 0 then [] else
            hexReprAux fuel (0 / 16) ++ [hexDigitChar (0 % 16)]) from rfl]
        rw [if_pos rfl]
      rw [hrepr]
      simp
    · have hrepr : hexReprAux (fuel + 1) n =
          hexReprAux fuel (n / 16) ++ [hexDigitChar (n % 16)] := by
        rw [show hexReprAux (fuel + 1) n =
          (if n = 0 then [] else
            hexReprAux fuel (n / 16) ++ [hexDigitChar (n % 16)]) from rfl]
        rw [if_neg h0]
      rw [hrepr, List.append_assoc, List.singleton_append]
      have hq : n / 16 < 16 ^ fuel := by
        have hp : (16 : Nat) ^ (fuel + 1) = 16 ^ fuel * 16 := by ring
        omega
      rw [ih (n / 16) hq acc (hexDigitChar (n % 16) :: r)]
      rw [parseHexNatAux_cons, hexDigitVal?_hexDigitChar]
      show parseHexNatAux
        ((acc * 16 ^ (hexReprAux fuel (n / 16)).length + n / 16) * 16 +
          n % 16 % 16) r = _
      rw [show n % 16 % 16 = n % 16 from by omega]
      congr 1
      rw [List.length_append, List.length_singleton, pow_succ]
      have hdm : 16 * (n / 16) + n % 16 = n := Nat.div_add_mod n 16
      set L := (hexReprAux fuel (n / 16)).length
      have : (acc * 16 ^ L + n / 16) * 16 + n % 16 =
          acc * (16 ^ L * 16) + (16 * (n / 16) + n % 16) := by ring
      rw [this, hdm]

theorem parseHexNat_formatHex4 (n : Nat) (h : n < 16 ^ 8) :
    parseHexNat (formatHex4 n) = some n := by
  have hne : formatHex4 n ≠ [] := by
    intro hc
    have hlen : (formatHex4 n).length = 0 := by rw [hc]; rfl
    unfold formatHex4 at hlen
    rw [List.length_append, List.length_replicate] at hlen
    omega
  have hstep : parseHexNat (formatHex4 n) = parseHexNatAux 0 (formatHex4 n) := by
    cases hf : formatHex4 n with
    | nil => exact absurd hf hne
    | cons c cs => rfl
  rw [hstep]
  show parseHexNatAux 0
    (List.replicate (4 - (hexReprAux 8 n).length) '0' ++ hexReprAux 8 n) =
    some n
  rw [parseHexNatAux_replicate]
  rw [show hexReprAux 8 n = hexReprAux 8 n ++ [] from (List.append_nil _).symm]
  rw [parseHexNatAux_hexRepr 8 n h, parseHexNatAux_nil]
  congr 1
  ring

theorem fromStrRadix16_cons (c : Char) (rest : Str) :
    fromStrRadix16 (c :: rest) =
      if c = '+' then
        (parseHexNat rest).bind fun n =>
          if n ≤ 2147483647 then some (n : Int) else none
      else if c = '-' then
        (parseHexNat rest).bind fun n =>
          if n ≤ 2147483648 then some (-(n : Int)) else none
      else
        (parseHexNat (c :: rest)).bind fun n =>
          if n ≤ 2147483647 then some (n : Int) else none := rfl

theorem fromStrRadix16_formatHexI32 (c : Int) (h0 : 0 ≤ c) (h1 : c ≤ 65535) :
    fromStrRadix16 (formatHexI32 c) = some c := by
  unfold formatHexI32
  rw [show c % 4294967296 = c from by omega]
  cases hf : formatHex4 c.toNat with
  | nil =>
    have := parseHexNat_formatHex4 c.toNat (by omega)
    rw [hf] at this
    cases this
  | cons ch rest =>
    have hsign := mem_formatHex4_not_sign c.toNat ch
      (by rw [hf]; exact List.mem_cons_self _ _)
    rw [fromStrRadix16_cons, if_neg hsign.1, if_neg hsign.2, ← hf,
      parseHexNat_formatHex4 c.toNat (by omega)]
    show (if c.toNat ≤ 2147483647 then some ((c.toNat : Nat) : Int) else none) =
      some c
    rw [if_pos (by omega)]
    congr 1
    omega

theorem formatHexI32_no_dash (c : Int) : '-' ∉ formatHexI32 c := by
  intro hm
  unfold formatHexI32 at hm
  exact (mem_formatHex4_not_sign _ _ hm).2 rfl

theorem rsplitn3_cases (sep : Char) (s : Str) :
    (∃ a, rsplitn3 sep s = [a]) ∨
    (∃ a b, rsplitn3 sep s = [a, b] ∧ sep ∉ a) ∨
    (∃ a b c, rsplitn3 sep s = [a, b, c] ∧ sep ∉ a ∧ sep ∉ b) := by
  unfold rsplitn3
  cases h1 : splitLast sep s with
  | none => exact Or.inl ⟨s, rfl⟩
  | some pa =>
    obtain ⟨pre, last⟩ := pa
    cases h2 : splitLast sep pre with
    | none =>
      exact Or.inr (Or.inl ⟨last, pre, by dsimp only; simp only [h2],
        splitLast_suffix sep s pre last (by rw [h1])⟩)
    | some pm =>
      obtain ⟨pre2, mid⟩ := pm
      exact Or.inr (Or.inr ⟨last, mid, pre2, by dsimp only; simp only [h2],
        splitLast_suffix sep s pre last (by rw [h1]),
        splitLast_suffix sep pre pre2 mid (by rw [h2])⟩)

theorem HlcTimestamp_parse_one (a s : Str) (h : rsplitn3 '-' s = [a]) :
    HlcTimestamp.parse s = .error .invalidFormat := by
  unfold HlcTimestamp.parse
  rw [h]

theorem HlcTimestamp_parse_two (a b s : Str) (h : rsplitn3 '-' s = [a, b]) :
    HlcTimestamp.parse s = .error .invalidFormat := by
  unfold HlcTimestamp.parse
  rw [h]

theorem HlcTimestamp_parse_three (p0 p1 p2 s : Str)
    (h : rsplitn3 '-' s = [p0, p1, p2]) :
    HlcTimestamp.parse s =
      (match fromStrRadix16 p1 with
       | none => .error .invalidCounter
       | some counter =>
         match parseRfc3339 p2 with
         | none => .error .invalidDatetime
         | some _ => .ok ⟨p2, counter, p0⟩) := by
  unfold HlcTimestamp.parse
  rw [h]

theorem fromStrRadix16_range (s : Str) (c : Int) (hns : '-' ∉ s)
    (h : fromStrRadix16 s = some c) : 0 ≤ c ∧ c ≤ 2147483647 := by
  cases s with
  | nil => simp [fromStrRadix16] at h
  | cons c0 rest =>
    rw [fromStrRadix16_cons] at h
    split_ifs at h with h1 h2
    · revert h
      cases hp : parseHexNat rest with
      | none => intro h; simp at h
      | some nv =>
        intro h
        simp only [Option.some_bind] at h
        split_ifs at h with h3
        injection h with h
        omega
    · exact absurd
        (show '-' ∈ c0 :: rest by rw [← h2]; exact List.mem_cons_self _ _) hns
    · revert h
      cases hp : parseHexNat (c0 :: rest) with
      | none => intro h; simp at h
      | some nv =>
        intro h
        simp only [Option.some_bind] at h
        split_ifs at h with h3
        injection h with h
        omega

theorem rsplitn3_toString (t : HlcTimestamp) (hnode : '-' ∉ t.node_id) :
    rsplitn3 '-' (HlcTimestamp.toString t) =
      [t.node_id, formatHexI32 t.counter, t.date_time] := by
  unfold rsplitn3 HlcTimestamp.toString
  have hassoc :
      t.date_time ++ '-' :: (formatHexI32 t.counter ++ '-' :: t.node_id) =
      (t.date_time ++ '-' :: formatHexI32 t.counter) ++ '-' :: t.node_id := by
    simp only [List.cons_append, List.append_assoc]
  rw [hassoc, splitLast_append '-' _ _ hnode]
  dsimp only
  simp only [splitLast_append '-' t.date_time (formatHexI32 t.counter)
    (formatHexI32_no_dash t.counter)]

/-- C2 (amended): the canonical round-trip law holds for every valid
Timestamp Value whose node id contains no `-`: if the wall-time string is
RFC 3339-parseable, the counter lies in `0..=0xFFFF`, and the node id has
no `-`, then `Parse(Format(t)) = Ok(t)`.  (For node ids containing `-` the
law fails; see the counterexample.) -/
theorem C2_roundtrip_amended (t : HlcTimestamp) (i : Int)
    (hdt : parseRfc3339 t.date_time = some i)
    (hc0 : 0 ≤ t.counter) (hc1 : t.counter ≤ 65535)
    (hnode : '-' ∉ t.node_id) :
    HlcTimestamp.parse (HlcTimestamp.toString t) = .ok t := by
  rw [HlcTimestamp_parse_three t.node_id (formatHexI32 t.counter) t.date_time
    (HlcTimestamp.toString t) (rsplitn3_toString t hnode)]
  rw [fromStrRadix16_formatHexI32 t.counter hc0 hc1]
  show (match parseRfc3339 t.date_time with
    | none => Except.error ParseError.invalidDatetime
    | some _ => Except.ok ⟨t.date_time, t.counter, t.node_id⟩) =
    Except.ok t
  rw [hdt]

/-- C2 counterexample: a Timestamp Value whose node id contains `-` does
not survive the round trip — `rsplitn(3, '-')` cuts inside the node id, so
parsing the formatted string fails with a counter error instead of
returning the value. -/
theorem C2_counterexample :
    HlcTimestamp.parse (HlcTimestamp.toString
      ⟨"2024-01-15T10:30:00Z".toList, 26, "node-alpha".toList⟩) =
      .error .invalidCounter := by decide

/-- C2 witness: the round trip at a concrete valid value. -/
theorem C2_witness :
    HlcTimestamp.parse (HlcTimestamp.toString
      ⟨"2024-01-15T10:30:00Z".toList, 26, "alpha".toList⟩) =
      .ok ⟨"2024-01-15T10:30:00Z".toList, 26, "alpha".toList⟩ :=
  C2_roundtrip_amended ⟨"2024-01-15T10:30:00Z".toList, 26, "alpha".toList⟩
    1705314600000000000 (by decide) (by decide) (by decide) (by decide)

/-- C9 (amended): `HlcTimestamp::parse` guarantees only the `i32` range
for the counter — it never returns a negative counter (a `-` sign cannot
survive the split), but it accepts any hexadecimal value up to
`i32::MAX`, including values far above `0xFFFF`. -/
theorem C9_parse_counter_range (s : Str) (t : HlcTimestamp)
    (h : HlcTimestamp.parse s = .ok t) :
    0 ≤ t.counter ∧ t.counter ≤ 2147483647 := by
  rcases rsplitn3_cases '-' s with ⟨a, hs⟩ | ⟨a, b, hs, hb⟩ |
    ⟨a, b, c, hs, ha, hb⟩
  · rw [HlcTimestamp_parse_one a s hs] at h
    simp at h
  · rw [HlcTimestamp_parse_two a b s hs] at h
    simp at h
  · rw [HlcTimestamp_parse_three a b c s hs] at h
    revert h
    cases hfx : fromStrRadix16 b with
    | none => intro h; simp at h
    | some counter =>
      cases hp : parseRfc3339 c with
      | none => intro h; simp at h
      | some j =>
        intro h
        injection h with h
        rw [← h]
        exact fromStrRadix16_range b counter hb hfx

/-- C9 counterexample: parsing a canonical string whose counter field is
`FFFFF` succeeds and yields the counter `0xFFFFF = 1048575`, far outside
`0..=0xFFFF` — the code performs no range check at construction. -/
theorem C9_counterexample :
    HlcTimestamp.parse ("1970-01-01T00:00:00Z-FFFFF-n".toList) =
      .ok ⟨"1970-01-01T00:00:00Z".toList, 1048575, "n".toList⟩ ∧
    ¬((1048575 : Int) ≤ 65535) := by
  constructor
  · decide
  · decide

/-- C9 witness: the amended bound at a concrete parse. -/
theorem C9_witness :
    (0 : Int) ≤ (HlcTimestamp.mk "1970-01-01T00:00:00Z".toList 26
      "n".toList).counter ∧
    (HlcTimestamp.mk "1970-01-01T00:00:00Z".toList 26
      "n".toList).counter ≤ 2147483647 :=
  C9_parse_counter_range ("1970-01-01T00:00:00Z-001A-n".toList)
    ⟨"1970-01-01T00:00:00Z".toList, 26, "n".toList⟩ (by decide)

/-- C10 (amended): `hlc_parse` propagates every parse failure unchanged to
the caller; the SQL type's input function, however, coerces any parse
failure into the fixed default Timestamp Value
`{1970-01-01T00:00:00Z, 0, "unknown"}`. -/
theorem C10_parse_propagation (s : Str) (e : ParseError)
    (h : HlcTimestamp.parse s = .error e) :
    hlcParse s = .error e ∧
    hlcInput s = ⟨"1970-01-01T00:00:00Z".toList, 0, "unknown".toList⟩ := by
  constructor
  · exact h
  · unfold hlcInput
    rw [h]

/-- C10 counterexample: the type's input function does not propagate the
failure on a malformed literal — it substitutes the default Timestamp
Value instead. -/
theorem C10_counterexample :
    HlcTimestamp.parse ("garbage".toList) = .error .invalidFormat ∧
    hlcInput ("garbage".toList) =
      ⟨"1970-01-01T00:00:00Z".toList, 0, "unknown".toList⟩ := by
  constructor
  · decide
  · decide

/-- C10 witness: propagation and input fallback at a concrete failing
string. -/
theorem C10_witness :
    hlcParse ("zzz".toList) = .error .invalidFormat ∧
    hlcInput ("zzz".toList) =
      ⟨"1970-01-01T00:00:00Z".toList, 0, "unknown".toList⟩ :=
  C10_parse_propagation ("zzz".toList) .invalidFormat (by decide)

theorem numMinutes_gt_one_iff (d : Int) :
    numMinutes d > 1 ↔ 120000000000 ≤ d := by
  unfold numMinutes tdivInt
  split_ifs <;> omega

/-- C7 (amended): the drift guard uses `TimeDelta::num_minutes`, which
truncates toward zero, so `ClockDrift` fires exactly when the drift is at
least two whole minutes (`≥ 120 s`), not when it merely exceeds one
minute: with the wall time resolved to `w`, `hlc_increment` on node `n`
returns `ClockDrift` iff the computed drift `di` is `≥ 120 s`, and a
non-dominated, non-duplicate `hlc_merge` returns `ClockDrift` iff
`remote_instant − w` is `≥ 120 s`.  Drifts strictly between one and two
minutes are accepted; see the counterexample. -/
theorem C7_clock_drift_amended (store : Store) (n : Str) (wt : Option Str)
    (now w : Int) (remote : HlcTimestamp) (rdt di dm : Int)
    (hw : resolveWallTime wt now = .ok w)
    (hr : parseRfc3339 remote.date_time = some rdt)
    (hndom : ¬(rdt < (store n).date_time ∨
      (rdt = (store n).date_time ∧ remote.counter ≤ (store n).counter)))
    (hdup : n ≠ remote.node_id)
    (hdi : di = (incrementState (store n) w).date_time - w)
    (hdm : dm = rdt - w) :
    ((hlcIncrement store n wt now).2 =
        .error (.clockDrift (numMinutes di)) ↔ 120000000000 ≤ di) ∧
    ((hlcMerge store n remote wt now).2 =
        .error (.clockDrift (numMinutes dm)) ↔ 120000000000 ≤ dm) := by
  subst hdi hdm
  constructor
  · rw [hlcIncrement_eq store n wt now w hw]
    split_ifs with h1 h2
    · exact iff_of_true rfl ((numMinutes_gt_one_iff _).mp
        (by simpa [MAX_DRIFT_MINUTES] using h1))
    · refine iff_of_false (by simp) (fun hge => h1 ?_)
      show numMinutes _ > MAX_DRIFT_MINUTES
      simpa [MAX_DRIFT_MINUTES] using (numMinutes_gt_one_iff _).mpr hge
    · refine iff_of_false (by simp) (fun hge => h1 ?_)
      show numMinutes _ > MAX_DRIFT_MINUTES
      simpa [MAX_DRIFT_MINUTES] using (numMinutes_gt_one_iff _).mpr hge
  · rw [hlcMerge_eq store n remote wt now w rdt hw hr]
    rw [if_neg hndom, if_neg hdup]
    split_ifs with h1
    · exact iff_of_true rfl ((numMinutes_gt_one_iff _).mp
        (by simpa [MAX_DRIFT_MINUTES] using h1))
    · refine iff_of_false (by simp) (fun hge => h1 ?_)
      show numMinutes _ > MAX_DRIFT_MINUTES
      simpa [MAX_DRIFT_MINUTES] using (numMinutes_gt_one_iff _).mpr hge

/-- C7 counterexample: a 90-second drift exceeds one minute, yet both the
increment and the analogous merge succeed, because
`num_minutes(90 s) = 1` is not `> 1`.  Here the node's stored instant is
90 s ahead of the observed wall time `0`. -/
theorem C7_counterexample :
    ((hlcIncrement (hlcIncrement initialStore ("n1".toList) none
        90000000000).1 ("n1".toList) none 0).2 =
      .ok ⟨"1970-01-01T00:01:30+00:00".toList, 1, "n1".toList⟩) ∧
    (60000000000 : Int) < 90000000000 ∧
    numMinutes 90000000000 = 1 := by
  refine ⟨by decide, by decide, by decide⟩

/-- C7 witness: with the stored instant 130 s ahead and a remote instant
150 s ahead of the observed wall time `0`, both guards fire. -/
theorem C7_witness :
    ((hlcIncrement (updateHlcState initialStore ("n1".toList)
          ⟨130000000000, 0, "n1".toList⟩) ("n1".toList) none 0).2 =
        .error (.clockDrift (numMinutes 130000000000)) ↔
      (120000000000 : Int) ≤ 130000000000) ∧
    ((hlcMerge (updateHlcState initialStore ("n1".toList)
          ⟨130000000000, 0, "n1".toList⟩) ("n1".toList)
        ⟨"1970-01-01T00:02:30Z".toList, 5, "n2".toList⟩ none 0).2 =
        .error (.clockDrift (numMinutes 150000000000)) ↔
      (120000000000 : Int) ≤ 150000000000) :=
  C7_clock_drift_amended
    (updateHlcState initialStore ("n1".toList)
      ⟨130000000000, 0, "n1".toList⟩)
    ("n1".toList) none 0 0
    ⟨"1970-01-01T00:02:30Z".toList, 5, "n2".toList⟩
    150000000000 130000000000 150000000000
    (by rfl) (by decide) (by decide) (by decide) (by decide) (by decide)

/-- C8 (confirmed): every failing operation — `hlc_increment`,
`hlc_merge`, or `hlc_from_date` returning any error (clock drift, counter
overflow, duplicate node, or an unparseable wall-time / date input) —
leaves the per-node state map exactly as it was: the error is returned
with no partial mutation.  The three clauses are independent implications
over the same universally quantified inputs, so each covers every failing
call of its operation, whatever the other two operations would do at
those inputs. -/
theorem C8_errors_preserve_state (store : Store) (n : Str) (wt : Option Str)
    (now : Int) (remote : HlcTimestamp) (d : Str) (e1 e2 e3 : HlcError) :
    ((hlcIncrement store n wt now).2 = .error e1 →
      (hlcIncrement store n wt now).1 = store) ∧
    ((hlcMerge store n remote wt now).2 = .error e2 →
      (hlcMerge store n remote wt now).1 = store) ∧
    ((hlcFromDate store d n).2 = .error e3 →
      (hlcFromDate store d n).1 = store) := by
  refine ⟨?_, ?_, ?_⟩
  · intro h1
    cases hw : resolveWallTime wt now with
    | error e =>
      show (hlcIncrement store n wt now).1 = store
      unfold hlcIncrement getOrCreateHlcState
      rw [hw]
    | ok w =>
      rw [hlcIncrement_eq store n wt now w hw] at h1 ⊢
      split_ifs at h1 ⊢ with hd hc
      · rfl
      · rfl
  · intro h2
    cases hw : resolveWallTime wt now with
    | error e =>
      show (hlcMerge store n remote wt now).1 = store
      unfold hlcMerge getOrCreateHlcState
      rw [hw]
    | ok w =>
      cases hr : parseRfc3339 remote.date_time with
      | none =>
        show (hlcMerge store n remote wt now).1 = store
        unfold hlcMerge getOrCreateHlcState
        rw [hw, hr]
      | some rdt =>
        rw [hlcMerge_eq store n remote wt now w rdt hw hr] at h2 ⊢
        split_ifs at h2 ⊢ with hdom hdup hdrift
        · rfl
        · rfl
  · intro h3
    cases hp : parseRfc3339 d with
    | none =>
      show (hlcFromDate store d n).1 = store
      unfold hlcFromDate
      rw [hp]
    | some i =>
      unfold hlcFromDate at h3
      rw [hp] at h3
      exact absurd h3 (by simp)

/-- C8 witness: three independently failing calls leave the map
untouched — an increment that fails with clock drift (stored instant
130 s ahead of the observed wall time `0`), a merge that fails with
`DuplicateNode` (non-dominated remote carrying the local node id, benign
wall time, where the same-parameter increment would succeed), and a
`from_date` with an unparseable date. -/
theorem C8_witness :
    (hlcIncrement (updateHlcState initialStore ("n1".toList)
        ⟨130000000000, 0, "n1".toList⟩) ("n1".toList) none 0).1 =
      updateHlcState initialStore ("n1".toList)
        ⟨130000000000, 0, "n1".toList⟩ ∧
    (hlcMerge initialStore ("n1".toList)
        ⟨"1970-01-01T00:00:05Z".toList, 3, "n1".toList⟩ none 5000000000).1 =
      initialStore ∧
    (hlcFromDate initialStore ("nope".toList) ("n1".toList)).1 =
      initialStore :=
  ⟨(C8_errors_preserve_state
      (updateHlcState initialStore ("n1".toList)
        ⟨130000000000, 0, "n1".toList⟩) ("n1".toList) none 0
      ⟨"1970-01-01T00:00:05Z".toList, 3, "n1".toList⟩ ("nope".toList)
      (.clockDrift 2) (.duplicateNode ("n1".toList)) .invalidDatetime).1
      (by decide),
   (C8_errors_preserve_state initialStore ("n1".toList) none 5000000000
      ⟨"1970-01-01T00:00:05Z".toList, 3, "n1".toList⟩ ("nope".toList)
      (.clockDrift 2) (.duplicateNode ("n1".toList)) .invalidDatetime).2.1
      (by decide),
   (C8_errors_preserve_state initialStore ("n1".toList) none 0
      ⟨"1970-01-01T00:00:05Z".toList, 3, "n1".toList⟩ ("nope".toList)
      (.clockDrift 2) (.duplicateNode ("n1".toList)) .invalidDatetime).2.2
      (by decide)⟩

/-- C3 (confirmed): a successful `hlc_increment` with resolved wall time
`w` stores exactly `new_time = max(current.wall_time, w)` and
`new_counter = current.counter + 1` when `new_time = current.wall_time`,
else `0`, and returns the Timestamp Value rendered from that state; and
when `w` equals the current state's wall time and the current counter is
`0`, two successive calls yield counters `1` then `2` with the wall time
unchanged. -/
theorem C3_increment_functional (store : Store) (n : Str) (wt : Option Str)
    (now w : Int) (t : HlcTimestamp)
    (hw : resolveWallTime wt now = .ok w)
    (hok : (hlcIncrement store n wt now).2 = .ok t) :
    ((hlcIncrement store n wt now).1 n = incrementState (store n) w) ∧
    ((incrementState (store n) w).date_time =
      max (store n).date_time w) ∧
    ((incrementState (store n) w).counter =
      if max (store n).date_time w = (store n).date_time
      then (store n).counter + 1 else 0) ∧
    (t = HlcTimestamp.fromState (incrementState (store n) w)) ∧
    (w = (store n).date_time → (store n).counter = 0 →
      ((hlcIncrement store n wt now).1 n).counter = 1 ∧
      ((hlcIncrement store n wt now).1 n).date_time =
        (store n).date_time ∧
      (hlcIncrement (hlcIncrement store n wt now).1 n wt now).2 =
        .ok (HlcTimestamp.fromState
          ⟨(store n).date_time, 2, (store n).node_id⟩) ∧
      ((hlcIncrement (hlcIncrement store n wt now).1 n wt now).1 n).counter =
        2 ∧
      ((hlcIncrement (hlcIncrement store n wt now).1 n wt now).1 n).date_time =
        (store n).date_time) := by
  rw [hlcIncrement_eq store n wt now w hw] at hok
  by_cases hd : numMinutes ((incrementState (store n) w).date_time - w) >
      MAX_DRIFT_MINUTES
  · rw [if_pos hd] at hok
    exact absurd hok (by simp)
  by_cases hc : (incrementState (store n) w).counter > MAX_COUNTER
  · rw [if_neg hd, if_pos hc] at hok
    exact absurd hok (by simp)
  rw [if_neg hd, if_neg hc] at hok
  have hres : hlcIncrement store n wt now =
      (updateHlcState store n (incrementState (store n) w),
        .ok (HlcTimestamp.fromState (incrementState (store n) w))) := by
    rw [hlcIncrement_eq store n wt now w hw, if_neg hd, if_neg hc]
  refine ⟨?_, rfl, rfl, ?_, ?_⟩
  · rw [hres]
    exact updateHlcState_same store n _
  · injection hok with hok
    exact hok.symm
  · intro hweq h0
    have hstate : (hlcIncrement store n wt now).1 n =
        ⟨(store n).date_time, 1, (store n).node_id⟩ := by
      rw [hres]
      show updateHlcState store n (incrementState (store n) w) n = _
      rw [updateHlcState_same]
      unfold incrementState
      rw [hweq, max_self]
      simp [h0]
    have hst2 : incrementState ((hlcIncrement store n wt now).1 n) w =
        ⟨(store n).date_time, 2, (store n).node_id⟩ := by
      rw [hstate]
      unfold incrementState
      dsimp only
      rw [hweq, max_self]
      simp
    have hc1 : ¬(numMinutes
        ((⟨(store n).date_time, 2, (store n).node_id⟩ :
          HlcState).date_time - w) > MAX_DRIFT_MINUTES) := by
      show ¬(numMinutes ((store n).date_time - w) > MAX_DRIFT_MINUTES)
      rw [← hweq, sub_self]
      decide
    have hc2 : ¬((⟨(store n).date_time, 2, (store n).node_id⟩ :
        HlcState).counter > MAX_COUNTER) := by
      show ¬((2 : Int) > MAX_COUNTER)
      decide
    have hres2 : hlcIncrement (hlcIncrement store n wt now).1 n wt now =
        (updateHlcState (hlcIncrement store n wt now).1 n
          ⟨(store n).date_time, 2, (store n).node_id⟩,
         .ok (HlcTimestamp.fromState
           ⟨(store n).date_time, 2, (store n).node_id⟩)) := by
      rw [hlcIncrement_eq (hlcIncrement store n wt now).1 n wt now w hw, hst2]
      rw [if_neg hc1, if_neg hc2]
    refine ⟨by rw [hstate], by rw [hstate], by rw [hres2], ?_, ?_⟩
    · rw [hres2]
      show (updateHlcState (hlcIncrement store n wt now).1 n
        ⟨(store n).date_time, 2, (store n).node_id⟩ n).counter = 2
      rw [updateHlcState_same]
    · rw [hres2]
      show (updateHlcState (hlcIncrement store n wt now).1 n
        ⟨(store n).date_time, 2, (store n).node_id⟩ n).date_time =
          (store n).date_time
      rw [updateHlcState_same]

/-- C3 witness: the increment law at the fresh store, node `n1`, observed
wall time `0` — the scenario hypotheses hold, giving counters 1 then 2. -/
theorem C3_witness :
    ((hlcIncrement initialStore ("n1".toList) none 0).1 ("n1".toList) =
      incrementState (initialStore ("n1".toList)) 0) ∧
    ((incrementState (initialStore ("n1".toList)) 0).date_time =
      max (initialStore ("n1".toList)).date_time 0) ∧
    ((incrementState (initialStore ("n1".toList)) 0).counter =
      if max (initialStore ("n1".toList)).date_time 0 =
          (initialStore ("n1".toList)).date_time
      then (initialStore ("n1".toList)).counter + 1 else 0) ∧
    ((⟨"1970-01-01T00:00:00+00:00".toList, 1, "n1".toList⟩ : HlcTimestamp) =
      HlcTimestamp.fromState (incrementState (initialStore ("n1".toList)) 0)) ∧
    ((0 : Int) = (initialStore ("n1".toList)).date_time →
      (initialStore ("n1".toList)).counter = 0 →
      ((hlcIncrement initialStore ("n1".toList) none 0).1
        ("n1".toList)).counter = 1 ∧
      ((hlcIncrement initialStore ("n1".toList) none 0).1
        ("n1".toList)).date_time = (initialStore ("n1".toList)).date_time ∧
      (hlcIncrement (hlcIncrement initialStore ("n1".toList) none 0).1
          ("n1".toList) none 0).2 =
        .ok (HlcTimestamp.fromState
          ⟨(initialStore ("n1".toList)).date_time, 2,
            (initialStore ("n1".toList)).node_id⟩) ∧
      ((hlcIncrement (hlcIncrement initialStore ("n1".toList) none 0).1
        ("n1".toList) none 0).1 ("n1".toList)).counter = 2 ∧
      ((hlcIncrement (hlcIncrement initialStore ("n1".toList) none 0).1
        ("n1".toList) none 0).1 ("n1".toList)).date_time =
        (initialStore ("n1".toList)).date_time) :=
  C3_increment_functional initialStore ("n1".toList) none 0 0
    ⟨"1970-01-01T00:00:00+00:00".toList, 1, "n1".toList⟩
    (by rfl) (by decide)

/-- C4 (confirmed): for a `hlc_merge` call whose wall time and remote
instant resolve, on a node whose stored entry carries its own id: if the
remote is causally dominated (`remote_instant < local.wall_time`, or equal
instants with `remote.counter ≤ local.counter`) the map is unchanged and
the prior local Timestamp Value is returned; otherwise a successful merge
stores the remote's instant and counter while the returned value's (and
the stored state's) node id stays the local one, never the remote's. -/
theorem C4_merge_semantics (store : Store) (n : Str) (remote : HlcTimestamp)
    (wt : Option Str) (now w rdt : Int) (t : HlcTimestamp)
    (hw : resolveWallTime wt now = .ok w)
    (hr : parseRfc3339 remote.date_time = some rdt)
    (hnid : (store n).node_id = n)
    (hok : (hlcMerge store n remote wt now).2 = .ok t) :
    ((rdt < (store n).date_time ∨
        (rdt = (store n).date_time ∧ remote.counter ≤ (store n).counter)) →
      hlcMerge store n remote wt now =
        (store, .ok (HlcTimestamp.fromState (store n)))) ∧
    (¬(rdt < (store n).date_time ∨
        (rdt = (store n).date_time ∧ remote.counter ≤ (store n).counter)) →
      ((hlcMerge store n remote wt now).1 n).date_time = rdt ∧
      ((hlcMerge store n remote wt now).1 n).counter = remote.counter ∧
      ((hlcMerge store n remote wt now).1 n).node_id = n ∧
      t.node_id = n ∧
      n ≠ remote.node_id ∧
      t = HlcTimestamp.fromState ⟨rdt, remote.counter, n⟩) := by
  have hmeq := hlcMerge_eq store n remote wt now w rdt hw hr
  constructor
  · intro hdom
    rw [hmeq, if_pos hdom]
  · intro hndom
    rw [hmeq, if_neg hndom] at hok ⊢
    by_cases hdup : n = remote.node_id
    · rw [if_pos hdup] at hok
      exact absurd hok (by simp)
    rw [if_neg hdup] at hok ⊢
    by_cases hdrift : numMinutes (rdt - w) > MAX_DRIFT_MINUTES
    · rw [if_pos hdrift] at hok
      exact absurd hok (by simp)
    rw [if_neg hdrift] at hok ⊢
    have hst : updateHlcState store n
        ⟨rdt, remote.counter, (store n).node_id⟩ n =
        ⟨rdt, remote.counter, (store n).node_id⟩ :=
      updateHlcState_same store n _
    injection hok with hok
    refine ⟨?_, ?_, ?_, ?_, hdup, ?_⟩
    · show (updateHlcState store n
        ⟨rdt, remote.counter, (store n).node_id⟩ n).date_time = rdt
      rw [hst]
    · show (updateHlcState store n
        ⟨rdt, remote.counter, (store n).node_id⟩ n).counter = remote.counter
      rw [hst]
    · show (updateHlcState store n
        ⟨rdt, remote.counter, (store n).node_id⟩ n).node_id = n
      rw [hst]
      exact hnid
    · rw [← hok]
      exact hnid
    · rw [← hok]
      unfold HlcTimestamp.fromState
      rw [hnid]

/-- C4 witness: merging a strictly newer remote from node `n2` into node
`n1`'s fresh state adopts the remote instant and counter and keeps the
local node id. -/
theorem C4_witness :
    (((5000000000 : Int) < (initialStore ("n1".toList)).date_time ∨
        ((5000000000 : Int) = (initialStore ("n1".toList)).date_time ∧
          (3 : Int) ≤ (initialStore ("n1".toList)).counter)) →
      hlcMerge initialStore ("n1".toList)
          ⟨"1970-01-01T00:00:05Z".toList, 3, "n2".toList⟩ none 5000000000 =
        (initialStore,
          .ok (HlcTimestamp.fromState (initialStore ("n1".toList))))) ∧
    (¬((5000000000 : Int) < (initialStore ("n1".toList)).date_time ∨
        ((5000000000 : Int) = (initialStore ("n1".toList)).date_time ∧
          (3 : Int) ≤ (initialStore ("n1".toList)).counter)) →
      ((hlcMerge initialStore ("n1".toList)
          ⟨"1970-01-01T00:00:05Z".toList, 3, "n2".toList⟩ none
          5000000000).1 ("n1".toList)).date_time = 5000000000 ∧
      ((hlcMerge initialStore ("n1".toList)
          ⟨"1970-01-01T00:00:05Z".toList, 3, "n2".toList⟩ none
          5000000000).1 ("n1".toList)).counter = 3 ∧
      ((hlcMerge initialStore ("n1".toList)
          ⟨"1970-01-01T00:00:05Z".toList, 3, "n2".toList⟩ none
          5000000000).1 ("n1".toList)).node_id = "n1".toList ∧
      (HlcTimestamp.mk ("1970-01-01T00:00:05+00:00".toList) 3
        ("n1".toList)).node_id = "n1".toList ∧
      "n1".toList ≠ "n2".toList ∧
      (HlcTimestamp.mk ("1970-01-01T00:00:05+00:00".toList) 3
        ("n1".toList)) =
        HlcTimestamp.fromState ⟨5000000000, 3, "n1".toList⟩) :=
  C4_merge_semantics initialStore ("n1".toList)
    ⟨"1970-01-01T00:00:05Z".toList, 3, "n2".toList⟩ none 5000000000
    5000000000 5000000000
    ⟨"1970-01-01T00:00:05+00:00".toList, 3, "n1".toList⟩
    (by rfl) (by decide) (by rfl) (by decide)

theorem cmp_eq_iff (a b : HlcTimestamp) :
    a.cmp b = .eq ↔ a.dtOf = b.dtOf ∧ a.counter = b.counter ∧
      a.node_id = b.node_id := by
  unfold HlcTimestamp.cmp
  cases hdt : compare a.dtOf b.dtOf with
  | lt =>
    dsimp only
    constructor
    · intro h; exact Ordering.noConfusion h
    · rintro ⟨he, -, -⟩
      rw [compare_eq_iff_eq.mpr he] at hdt
      exact Ordering.noConfusion hdt
  | gt =>
    dsimp only
    constructor
    · intro h; exact Ordering.noConfusion h
    · rintro ⟨he, -, -⟩
      rw [compare_eq_iff_eq.mpr he] at hdt
      exact Ordering.noConfusion hdt
  | eq =>
    have hde := compare_eq_iff_eq.mp hdt
    dsimp only
    cases hc : compare a.counter b.counter with
    | lt =>
      dsimp only
      constructor
      · intro h; exact Ordering.noConfusion h
      · rintro ⟨-, hce, -⟩
        rw [compare_eq_iff_eq.mpr hce] at hc
        exact Ordering.noConfusion hc
    | gt =>
      dsimp only
      constructor
      · intro h; exact Ordering.noConfusion h
      · rintro ⟨-, hce, -⟩
        rw [compare_eq_iff_eq.mpr hce] at hc
        exact Ordering.noConfusion hc
    | eq =>
      have hce := compare_eq_iff_eq.mp hc
      dsimp only
      constructor
      · intro h
        exact ⟨hde, hce, compareStr_eq _ _ h⟩
      · rintro ⟨-, -, hn⟩
        rw [hn]
        exact compareStr_self _

theorem cmp_lt_iff (a b : HlcTimestamp) :
    a.cmp b = .lt ↔ a.dtOf < b.dtOf ∨ (a.dtOf = b.dtOf ∧
      (a.counter < b.counter ∨ (a.counter = b.counter ∧
        compareStr a.node_id b.node_id = .lt))) := by
  unfold HlcTimestamp.cmp
  cases hdt : compare a.dtOf b.dtOf with
  | lt =>
    dsimp only
    exact iff_of_true rfl (Or.inl (compare_lt_iff_lt.mp hdt))
  | gt =>
    have hgt := compare_gt_iff_gt.mp hdt
    dsimp only
    constructor
    · intro h; exact Ordering.noConfusion h
    · rintro (h | ⟨h, -⟩)
      · exact absurd hgt (not_lt_of_lt h)
      · exact absurd hgt (by rw [h]; exact lt_irrefl _)
  | eq =>
    have hde := compare_eq_iff_eq.mp hdt
    dsimp only
    cases hc : compare a.counter b.counter with
    | lt =>
      dsimp only
      exact iff_of_true rfl
        (Or.inr ⟨hde, Or.inl (compare_lt_iff_lt.mp hc)⟩)
    | gt =>
      have hgt := compare_gt_iff_gt.mp hc
      dsimp only
      constructor
      · intro h; exact Ordering.noConfusion h
      · rintro (h | ⟨-, h | ⟨h, -⟩⟩)
        · exact absurd h (by rw [hde]; exact lt_irrefl _)
        · exact absurd hgt (not_lt_of_lt h)
        · exact absurd hgt (by rw [h]; exact lt_irrefl _)
    | eq =>
      have hce := compare_eq_iff_eq.mp hc
      dsimp only
      constructor
      · intro h
        exact Or.inr ⟨hde, Or.inr ⟨hce, h⟩⟩
      · rintro (h | ⟨-, h | ⟨-, h⟩⟩)
        · exact absurd h (by rw [hde]; exact lt_irrefl _)
        · exact absurd h (by rw [hce]; exact lt_irrefl _)
        · exact h

/-- C6 (amended): the comparison operators are total and mutually
exclusive with respect to the derived `Ord`, and that order compares the
*parsed* wall time (epoch on parse failure) first, then the counter, then
the node id (byte order).  Structural equality (`PartialEq`, used by
`hlc_eq`) implies order-equivalence, but the converse fails: order
equivalence only requires equal parsed instants, counters and node ids,
not equal wall-time strings — so "equal iff all three fields are equal"
does not hold for the order; see the counterexample. -/
theorem C6_ordering_amended (a b : HlcTimestamp) :
    (hlcLt a b = true ↔ a.cmp b = .lt) ∧
    (hlcGt a b = true ↔ a.cmp b = .gt) ∧
    (hlcEq a b = true ↔ a = b) ∧
    (a.cmp b = .lt ∨ a.cmp b = .eq ∨ a.cmp b = .gt) ∧
    ¬(a.cmp b = .lt ∧ a.cmp b = .eq) ∧
    ¬(a.cmp b = .lt ∧ a.cmp b = .gt) ∧
    ¬(a.cmp b = .eq ∧ a.cmp b = .gt) ∧
    (a = b → a.cmp b = .eq) ∧
    (a.cmp b = .eq ↔ a.dtOf = b.dtOf ∧ a.counter = b.counter ∧
      a.node_id = b.node_id) ∧
    (a.cmp b = .lt ↔ a.dtOf < b.dtOf ∨ (a.dtOf = b.dtOf ∧
      (a.counter < b.counter ∨ (a.counter = b.counter ∧
        compareStr a.node_id b.node_id = .lt)))) := by
  refine ⟨by unfold hlcLt; cases a.cmp b <;> decide,
    by unfold hlcGt; cases a.cmp b <;> decide, by simp [hlcEq], ?_, ?_, ?_, ?_,
    ?_, cmp_eq_iff a b, cmp_lt_iff a b⟩
  · cases h : a.cmp b
    · exact Or.inl rfl
    · exact Or.inr (Or.inl rfl)
    · exact Or.inr (Or.inr rfl)
  · rintro ⟨h1, h2⟩
    rw [h1] at h2
    exact Ordering.noConfusion h2
  · rintro ⟨h1, h2⟩
    rw [h1] at h2
    exact Ordering.noConfusion h2
  · rintro ⟨h1, h2⟩
    rw [h1] at h2
    exact Ordering.noConfusion h2
  · intro h
    rw [h]
    exact (cmp_eq_iff b b).mpr ⟨rfl, rfl, rfl⟩

/-- C6 counterexample: two structurally different values whose wall-time
strings both fail to parse are order-equivalent — none of `a<b`, `a==b`
(structural), `a>b` holds, refuting both the exactly-one clause and
"equal iff all three fields equal". -/
theorem C6_counterexample :
    (HlcTimestamp.mk ("x".toList) 0 ("n".toList)).cmp
      (HlcTimestamp.mk ("y".toList) 0 ("n".toList)) = .eq ∧
    HlcTimestamp.mk ("x".toList) 0 ("n".toList) ≠
      HlcTimestamp.mk ("y".toList) 0 ("n".toList) ∧
    hlcLt (HlcTimestamp.mk ("x".toList) 0 ("n".toList))
      (HlcTimestamp.mk ("y".toList) 0 ("n".toList)) = false ∧
    hlcEq (HlcTimestamp.mk ("x".toList) 0 ("n".toList))
      (HlcTimestamp.mk ("y".toList) 0 ("n".toList)) = false ∧
    hlcGt (HlcTimestamp.mk ("x".toList) 0 ("n".toList))
      (HlcTimestamp.mk ("y".toList) 0 ("n".toList)) = false := by
  refine ⟨by decide, by decide, by decide, by decide, by decide⟩

/-- C6 witness: the amended ordering laws at two concrete values differing
only in their counter. -/
theorem C6_witness :
    (hlcLt (HlcTimestamp.mk ("1970-01-01T00:00:00Z".toList) 0 ("n".toList))
        (HlcTimestamp.mk ("1970-01-01T00:00:00Z".toList) 1 ("n".toList)) =
        true ↔
      (HlcTimestamp.mk ("1970-01-01T00:00:00Z".toList) 0 ("n".toList)).cmp
        (HlcTimestamp.mk ("1970-01-01T00:00:00Z".toList) 1 ("n".toList)) =
        .lt) ∧
    (hlcGt (HlcTimestamp.mk ("1970-01-01T00:00:00Z".toList) 0 ("n".toList))
        (HlcTimestamp.mk ("1970-01-01T00:00:00Z".toList) 1 ("n".toList)) =
        true ↔
      (HlcTimestamp.mk ("1970-01-01T00:00:00Z".toList) 0 ("n".toList)).cmp
        (HlcTimestamp.mk ("1970-01-01T00:00:00Z".toList) 1 ("n".toList)) =
        .gt) ∧
    (hlcEq (HlcTimestamp.mk ("1970-01-01T00:00:00Z".toList) 0 ("n".toList))
        (HlcTimestamp.mk ("1970-01-01T00:00:00Z".toList) 1 ("n".toList)) =
        true ↔
      HlcTimestamp.mk ("1970-01-01T00:00:00Z".toList) 0 ("n".toList) =
        HlcTimestamp.mk ("1970-01-01T00:00:00Z".toList) 1 ("n".toList)) ∧
    ((HlcTimestamp.mk ("1970-01-01T00:00:00Z".toList) 0 ("n".toList)).cmp
        (HlcTimestamp.mk ("1970-01-01T00:00:00Z".toList) 1 ("n".toList)) =
        .lt ∨
      (HlcTimestamp.mk ("1970-01-01T00:00:00Z".toList) 0 ("n".toList)).cmp
        (HlcTimestamp.mk ("1970-01-01T00:00:00Z".toList) 1 ("n".toList)) =
        .eq ∨
      (HlcTimestamp.mk ("1970-01-01T00:00:00Z".toList) 0 ("n".toList)).cmp
        (HlcTimestamp.mk ("1970-01-01T00:00:00Z".toList) 1 ("n".toList)) =
        .gt) ∧
    ¬((HlcTimestamp.mk ("1970-01-01T00:00:00Z".toList) 0 ("n".toList)).cmp
        (HlcTimestamp.mk ("1970-01-01T00:00:00Z".toList) 1 ("n".toList)) =
        .lt ∧
      (HlcTimestamp.mk ("1970-01-01T00:00:00Z".toList) 0 ("n".toList)).cmp
        (HlcTimestamp.mk ("1970-01-01T00:00:00Z".toList) 1 ("n".toList)) =
        .eq) ∧
    ¬((HlcTimestamp.mk ("1970-01-01T00:00:00Z".toList) 0 ("n".toList)).cmp
        (HlcTimestamp.mk ("1970-01-01T00:00:00Z".toList) 1 ("n".toList)) =
        .lt ∧
      (HlcTimestamp.mk ("1970-01-01T00:00:00Z".toList) 0 ("n".toList)).cmp
        (HlcTimestamp.mk ("1970-01-01T00:00:00Z".toList) 1 ("n".toList)) =
        .gt) ∧
    ¬((HlcTimestamp.mk ("1970-01-01T00:00:00Z".toList) 0 ("n".toList)).cmp
        (HlcTimestamp.mk ("1970-01-01T00:00:00Z".toList) 1 ("n".toList)) =
        .eq ∧
      (HlcTimestamp.mk ("1970-01-01T00:00:00Z".toList) 0 ("n".toList)).cmp
        (HlcTimestamp.mk ("1970-01-01T00:00:00Z".toList) 1 ("n".toList)) =
        .gt) ∧
    (HlcTimestamp.mk ("1970-01-01T00:00:00Z".toList) 0 ("n".toList) =
        HlcTimestamp.mk ("1970-01-01T00:00:00Z".toList) 1 ("n".toList) →
      (HlcTimestamp.mk ("1970-01-01T00:00:00Z".toList) 0 ("n".toList)).cmp
        (HlcTimestamp.mk ("1970-01-01T00:00:00Z".toList) 1 ("n".toList)) =
        .eq) ∧
    ((HlcTimestamp.mk ("1970-01-01T00:00:00Z".toList) 0 ("n".toList)).cmp
        (HlcTimestamp.mk ("1970-01-01T00:00:00Z".toList) 1 ("n".toList)) =
        .eq ↔
      (HlcTimestamp.mk ("1970-01-01T00:00:00Z".toList) 0 ("n".toList)).dtOf =
        (HlcTimestamp.mk ("1970-01-01T00:00:00Z".toList) 1
          ("n".toList)).dtOf ∧
      (HlcTimestamp.mk ("1970-01-01T00:00:00Z".toList) 0
          ("n".toList)).counter =
        (HlcTimestamp.mk ("1970-01-01T00:00:00Z".toList) 1
          ("n".toList)).counter ∧
      (HlcTimestamp.mk ("1970-01-01T00:00:00Z".toList) 0
          ("n".toList)).node_id =
        (HlcTimestamp.mk ("1970-01-01T00:00:00Z".toList) 1
          ("n".toList)).node_id) ∧
    ((HlcTimestamp.mk ("1970-01-01T00:00:00Z".toList) 0 ("n".toList)).cmp
        (HlcTimestamp.mk ("1970-01-01T00:00:00Z".toList) 1 ("n".toList)) =
        .lt ↔
      (HlcTimestamp.mk ("1970-01-01T00:00:00Z".toList) 0 ("n".toList)).dtOf <
        (HlcTimestamp.mk ("1970-01-01T00:00:00Z".toList) 1
          ("n".toList)).dtOf ∨
      ((HlcTimestamp.mk ("1970-01-01T00:00:00Z".toList) 0 ("n".toList)).dtOf =
        (HlcTimestamp.mk ("1970-01-01T00:00:00Z".toList) 1
          ("n".toList)).dtOf ∧
        ((HlcTimestamp.mk ("1970-01-01T00:00:00Z".toList) 0
            ("n".toList)).counter <
          (HlcTimestamp.mk ("1970-01-01T00:00:00Z".toList) 1
            ("n".toList)).counter ∨
        ((HlcTimestamp.mk ("1970-01-01T00:00:00Z".toList) 0
            ("n".toList)).counter =
          (HlcTimestamp.mk ("1970-01-01T00:00:00Z".toList) 1
            ("n".toList)).counter ∧
          compareStr
            (HlcTimestamp.mk ("1970-01-01T00:00:00Z".toList) 0
              ("n".toList)).node_id
            (HlcTimestamp.mk ("1970-01-01T00:00:00Z".toList) 1
              ("n".toList)).node_id = .lt)))) :=
  C6_ordering_amended
    (HlcTimestamp.mk ("1970-01-01T00:00:00Z".toList) 0 ("n".toList))
    (HlcTimestamp.mk ("1970-01-01T00:00:00Z".toList) 1 ("n".toList))

/-- C1 (amended): monotonicity holds for the operations that consult the
stored state — `Increment`, `Merge`, and `GetState` — on any node whose
entry satisfies the state invariant, provided every wall-time input is in
the RFC 3339-printable range: the sequence of Timestamp Values returned
for the node is nondecreasing under the SQL ordering.  The original claim
is false for `Zero`, `Now` and `FromDate`, which overwrite the state
unconditionally and can move the clock backwards; see the
counterexample. -/
theorem C1_monotonic_amended (store : Store) (n : Str) (ops : List HlcOp)
    (hinv : StateInv n (store n)) (hv : ∀ op ∈ ops, ValidOp op) :
    List.Chain' (fun a b => hlcLte a b = true) (runOps store n ops).2 :=
  (runOps_chain n ops store hinv hv).2.2.1

/-- C1 counterexample: `Increment` at 60 s then `Zero` on the same node
returns a second value strictly below the first — `Zero` resets the state
unconditionally, so the returned sequence is not nondecreasing. -/
theorem C1_counterexample :
    ((hlcIncrement initialStore ("n1".toList) none 60000000000).2 =
      .ok ⟨"1970-01-01T00:01:00+00:00".toList, 0, "n1".toList⟩) ∧
    ((hlcZero (hlcIncrement initialStore ("n1".toList) none 60000000000).1
        ("n1".toList)).2 =
      ⟨"1970-01-01T00:00:00+00:00".toList, 0, "n1".toList⟩) ∧
    hlcGte ⟨"1970-01-01T00:00:00+00:00".toList, 0, "n1".toList⟩
      ⟨"1970-01-01T00:01:00+00:00".toList, 0, "n1".toList⟩ = false ∧
    hlcLt ⟨"1970-01-01T00:00:00+00:00".toList, 0, "n1".toList⟩
      ⟨"1970-01-01T00:01:00+00:00".toList, 0, "n1".toList⟩ = true := by
  refine ⟨by decide, by decide, by decide, by decide⟩

/-- C1 witness: an increment followed by a state read on a fresh node
yields a nondecreasing chain. -/
theorem C1_witness :
    List.Chain' (fun a b => hlcLte a b = true)
      (runOps initialStore ("n1".toList)
        [HlcOp.increment none 0, HlcOp.getState]).2 :=
  C1_monotonic_amended initialStore ("n1".toList)
    [HlcOp.increment none 0, HlcOp.getState]
    ⟨rfl, by unfold printable; decide⟩
    (fun op hop => by
      rcases List.mem_cons.mp hop with h | h
      · rw [h]
        exact ⟨fun _ => by unfold printable; decide,
          fun s i hc => Option.noConfusion hc⟩
      · rcases List.mem_cons.mp h with h | h
        · rw [h]
          exact True.intro
        · cases h)

/-- C5 (confirmed): for a fixed node, a run of `Increment` calls with
wall-time readings in the printable range in which no call fails (every
call returns a value, i.e. as many values come back as calls were made)
returns a strictly increasing sequence of Timestamp Values under the SQL
ordering.  The non-decreasing-wall-time premise of the claim is carried
as a hypothesis; strictness in fact holds without it. -/
theorem C5_increment_strict (n : Str) (ws : List Int) (store : Store)
    (hinv : StateInv n (store n))
    (_hmono : List.Chain' (fun a b => a ≤ b) ws)
    (hprint : ∀ w ∈ ws, printable w)
    (hnofail : ((runOps store n
      (ws.map (fun w => HlcOp.increment none w))).2).length = ws.length) :
    List.Chain' (fun a b => hlcLt a b = true)
      (runOps store n (ws.map (fun w => HlcOp.increment none w))).2 :=
  (runIncr_strict n ws store hinv hprint hnofail).2.1

/-- C5 witness: two increments at 0 s and 60 s on a fresh node give a
strictly increasing pair. -/
theorem C5_witness :
    List.Chain' (fun a b => hlcLt a b = true)
      (runOps initialStore ("n1".toList)
        ([0, 60000000000].map (fun w => HlcOp.increment none w))).2 :=
  C5_increment_strict ("n1".toList) [0, 60000000000] initialStore
    ⟨rfl, by unfold printable; decide⟩
    (by norm_num [List.chain'_cons])
    (by
      intro w hw
      rcases List.mem_cons.mp hw with h | h
      · rw [h]; unfold printable; decide
      · rcases List.mem_cons.mp h with h | h
        · rw [h]; unfold printable; decide
        · cases h)
    (by decide)
